import Mathlib

/-!
# FlightVault: verification of the disaster-recovery core

Shallow embedding of the FlightVault recovery layer:

* `core/temporal_engine.py` — diff engine (`calculate_diff`, `_rows_different`,
  `_get_field_changes`) and the key-addressed writer `restore_records`;
* `algorithms/diff_analyzer.py` — `DiffAnalyzer._calculate_diff`;
* `algorithms/health_scorer.py` — the four health checks;
* `src/algorithms/smart_restore_algorithm.py` — the binary search through
  time, boundary refinement and its health checks;
* `src/core/selective_restore.py` — change classification and the
  transactional selective-restore executor.

Conventions of the embedding:

* a database row (Python dict) is an association list `Record` of field
  names to scalar values; lookup takes the first binding, which coincides
  with dict semantics whenever field names are unique (always true for rows
  produced by the database driver);
* scalar values are modelled as integers (`Value := Int`): the claims under
  study only need values that can be compared for equality and ordered;
* timestamps are rationals (`Time := Rat`), measured in seconds: Python
  `datetime`/`timedelta` arithmetic at microsecond resolution is exact
  rational arithmetic on every execution path the claims exercise;
* store queries that may raise are modelled as `Option` inputs: `none`
  stands for the query raising an exception;
* Python `int(x)` on a nonnegative float product like `baseline * 0.8` is
  modelled as the rational floor, which coincides with the float result for
  every baseline the system can hold.
-/

namespace FlightVault

abbrev Field := String
abbrev Value := Int
/-- A database row: an unordered mapping field name → scalar value,
modelled as an association list (first binding wins, as for a dict with
unique keys). -/
abbrev Record := List (Field × Value)

/-- The provenance fields that `temporal_engine.py` excludes from
comparison and from every write (`ignore_keys` in `_rows_different`,
`_get_field_changes`, `restore_records`, and the strip in
`selective_restore._execute_batch_restore`). -/
def ignoredFields : List Field :=
  ["ROW_START", "ROW_END", "changed_at", "valid_until", "status"]

def ignored (f : Field) : Bool := ignoredFields.contains f

/-- `row.get(key)`: first binding of `f` in `r`, `none` when absent. -/
def getF (r : Record) (f : Field) : Option Value :=
  (r.find? (fun kv => kv.1 == f)).map (·.2)

/-- Strip the provenance fields from a record, as done on every write path
(`clean_record` in `restore_records` and `_execute_batch_restore`). -/
def stripRec (r : Record) : Record := r.filter (fun kv => !ignored kv.1)

/-- `TemporalEngine.tables`: the registry of table → primary-key field. -/
def tables : List (String × Field) :=
  [("airports", "airport_id"), ("airlines", "airline_id"), ("routes", "route_id")]

/-- `self.tables[table]` — `none` models the `KeyError` on an unknown table. -/
def tablesPk (table : String) : Option Field :=
  (tables.find? (fun kv => kv.1 == table)).map (·.2)

/-! ## Python dicts keyed by primary key

`before_dict = {row[pk]: row for row in before_data}` builds a dict in
input order; a duplicate key keeps its first position but takes the last
value.  `dictInsert` is exactly that update. -/

abbrev Dict := List (Value × Record)

def dictInsert (k : Value) (r : Record) : Dict → Dict
  | [] => [(k, r)]
  | kv :: rest => if kv.1 == k then (k, r) :: rest else kv :: dictInsert k r rest

/-- Build `{row[pk]: row for row in rows}` left to right; `none` models the
`KeyError` raised when a row lacks the primary-key field. -/
def buildDictAux (pk : Field) (acc : Dict) : List Record → Option Dict
  | [] => some acc
  | r :: rest =>
    match getF r pk with
    | none => none
    | some k => buildDictAux pk (dictInsert k r acc) rest

def buildDict (pk : Field) (rows : List Record) : Option Dict :=
  buildDictAux pk [] rows

/-- Dict lookup (first binding). -/
def dlookup (d : Dict) (k : Value) : Option Record :=
  (d.find? (fun kv => kv.1 == k)).map (·.2)

/-- The primary-key values of `rows`, `none` if any row lacks the field. -/
def keysOf (pk : Field) : List Record → Option (List Value)
  | [] => some []
  | r :: rest =>
    match getF r pk, keysOf pk rest with
    | some k, some ks => some (k :: ks)
    | _, _ => none

/-! ## TemporalEngine.calculate_diff -/

/-- `TemporalEngine._rows_different`: iterate the keys of the FIRST row
only, skip provenance fields, flag any differing value. -/
def rows_different (r1 r2 : Record) : Bool :=
  (r1.map (·.1)).any (fun k => !ignored k && decide (getF r1 k ≠ getF r2 k))

/-- One entry of `_get_field_changes`. -/
structure FieldChange where
  field : Field
  before : Option Value
  after : Option Value
deriving DecidableEq, Repr

/-- `TemporalEngine._get_field_changes`: iterate the keys of the first row,
skip provenance fields, record both sides when they differ. -/
def get_field_changes (r1 r2 : Record) : List FieldChange :=
  (r1.map (·.1)).filterMap (fun k =>
    if ignored k then none
    else if getF r1 k ≠ getF r2 k then some ⟨k, getF r1 k, getF r2 k⟩ else none)

/-- One modified entry of `calculate_diff`. -/
structure ModEntry where
  before : Record
  after : Record
  changes : List FieldChange
deriving DecidableEq, Repr

/-- Result of `calculate_diff` (the `summary` dict of the source holds the
three list lengths and is not modelled separately). -/
structure DiffResult where
  added : List Record
  deleted : List Record
  modified : List ModEntry
deriving DecidableEq, Repr

/-- `TemporalEngine.calculate_diff(before_data, after_data, table)`.
The set intersection the source iterates for modified records has
unspecified (Python set) order; the embedding fixes before-dict order,
which is one of the admissible executions. -/
def calculate_diff (before_data after_data : List Record) (table : String) :
    Option DiffResult :=
  match tablesPk table with
  | none => none
  | some pk =>
    match buildDict pk before_data, buildDict pk after_data with
    | some bd, some ad =>
      some
        { added := (ad.filter (fun kr => (dlookup bd kr.1).isNone)).map (·.2)
          deleted := (bd.filter (fun kr => (dlookup ad kr.1).isNone)).map (·.2)
          modified := bd.filterMap (fun kr =>
            match dlookup ad kr.1 with
            | none => none
            | some arow =>
              if rows_different kr.2 arow then
                some ⟨kr.2, arow, get_field_changes kr.2 arow⟩
              else none) }
    | _, _ => none

/-! ## DiffAnalyzer._calculate_diff

Unlike the temporal engine, the analyzer compares WHOLE dicts
(`dict1[pk] != dict2[pk]`), provenance fields included, and its
`_field_changes` only reports fields present on both sides. -/

/-- Python dict equality: same keys, same values (order-independent). -/
def recEqual (r s : Record) : Bool :=
  (r.map (·.1) ++ s.map (·.1)).all (fun f => getF r f == getF s f)

/-- `DiffAnalyzer._get_primary_key` — unknown tables default to `"id"`. -/
def da_get_primary_key (table : String) : Field :=
  (tablesPk table).getD "id"

/-- One modified entry of `DiffAnalyzer._calculate_diff`; `changes` is the
`_field_changes` dict, modelled as the key-ordered list of its items. -/
structure DAModEntry where
  before : Record
  after : Record
  changes : List (Field × Value × Value)
deriving DecidableEq, Repr

/-- `DiffAnalyzer._field_changes`: fields of `before` present in `after`
with differing values; NOTHING is skipped. -/
def da_field_changes (before after : Record) : List (Field × Value × Value) :=
  before.filterMap (fun kv =>
    match getF after kv.1 with
    | none => none
    | some av => if kv.2 ≠ av then some (kv.1, kv.2, av) else none)

/-- `DiffAnalyzer._calculate_diff(data1, data2, table)`; `none` models a
`KeyError` from a record missing the primary key. -/
def da_calculate_diff (data1 data2 : List Record) (table : String) :
    Option (List Record × List Record × List DAModEntry) :=
  let pk := da_get_primary_key table
  match buildDict pk data1, buildDict pk data2 with
  | some d1, some d2 =>
    some
      ((d2.filter (fun kr => (dlookup d1 kr.1).isNone)).map (·.2),
       (d1.filter (fun kr => (dlookup d2 kr.1).isNone)).map (·.2),
       d1.filterMap (fun kr =>
         match dlookup d2 kr.1 with
         | none => none
         | some r2 =>
           if !recEqual kr.2 r2 then
             some ⟨kr.2, r2, da_field_changes kr.2 r2⟩
           else none))
  | _, _ => none

/-! ## HealthScorer (`algorithms/health_scorer.py`)

Store queries appear as `Option` parameters; `none` models the query (or
the surrounding code) raising, which the source catches with bare
`except:` clauses. -/

abbrev Time := Rat

/-- `int(x)` on a nonnegative value, as rational floor. -/
def pyInt (x : Rat) : Nat := (Int.floor x).toNat

/-- `HealthScorer._get_expected_count`: `(min, max)` from the current
count, or the `(1, 10000)` fallback when the query raises. -/
def get_expected_count (qCurrent : Option (List Record)) : Nat × Nat :=
  match qCurrent with
  | some rows => (pyInt ((rows.length : Rat) * (8 / 10)),
                  pyInt ((rows.length : Rat) * (12 / 10)))
  | none => (1, 10000)

/-- `HealthScorer._check_record_count` score: 25 inside `[min, max]`,
15 when `actual ≥ min * 0.8`, else 0. -/
def check_record_count (actual mn mx : Nat) : Nat :=
  if mn ≤ actual ∧ actual ≤ mx then 25
  else if (mn : Rat) * (8 / 10) ≤ (actual : Rat) then 15
  else 0

/-- `required_fields` registry shared by both scorer implementations. -/
def required_fields (table : String) : Option (List Field) :=
  if table == "airports" then some ["airport_id", "name"]
  else if table == "airlines" then some ["airline_id", "name"]
  else if table == "routes" then some ["route_id"]
  else none

/-- Python truthiness of `record.get(field)`: `None`, and the integer `0`,
are falsy. -/
def truthy (v : Option Value) : Bool :=
  match v with
  | none => false
  | some n => n != 0

/-- `HealthScorer._check_required_fields` score (bands 25 / 15 / 0). -/
def check_required_fields (data : List Record) (table : String) : Nat :=
  match required_fields table with
  | none => 25
  | some req =>
    let violations := (data.map (fun r => (req.filter
      (fun f => !truthy (getF r f))).length)).sum
    let total := data.length * req.length
    if violations = 0 then 25
    else if (violations : Rat) / (total : Rat) < 1 / 10 then 15
    else 0

structure FKCheck where
  score : Nat
  fkStatus : String
deriving DecidableEq, Repr

/-- `HealthScorer._check_foreign_keys`: non-route tables score 25; a
failing sub-query (`qAirports = none`, or an airport row without its key)
scores 10 with status `unknown`; otherwise the valid-reference fraction is
banded 25 / 15 / 0. -/
def check_foreign_keys (table : String) (data : List Record)
    (qAirports : Option (List Record)) : FKCheck :=
  if table != "routes" then ⟨25, "healthy"⟩
  else
    match qAirports.bind (fun aps => aps.mapM (fun a => getF a "airport_id")) with
    | none => ⟨10, "unknown"⟩
    | some validIds =>
      let validRoutes := (data.filter (fun r =>
        match getF r "source_airport_id", getF r "destination_airport_id" with
        | some s, some d => validIds.contains s && validIds.contains d
        | _, _ => false)).length
      let pct : Rat := if data.isEmpty then 1 else (validRoutes : Rat) / (data.length : Rat)
      if 95 / 100 ≤ pct then ⟨25, "healthy"⟩
      else if 8 / 10 ≤ pct then ⟨15, "warning"⟩
      else ⟨0, "critical"⟩

/-- `HealthScorer._check_data_distribution` score. -/
def check_data_distribution (data : List Record) (table : String) : Nat :=
  if table == "airports" then
    let cities := data.filterMap (fun r =>
      if truthy (getF r "city") then getF r "city" else none)
    let countries := data.filterMap (fun r =>
      if truthy (getF r "country") then getF r "country" else none)
    let cityDiv : Rat :=
      if cities.isEmpty then 0 else (cities.dedup.length : Rat) / (cities.length : Rat)
    let countryDiv : Rat :=
      if countries.isEmpty then 0 else (countries.dedup.length : Rat) / (countries.length : Rat)
    (if 3 / 10 < cityDiv then 15 else if 1 / 10 < cityDiv then 10 else 5) +
      (if 1 / 10 < countryDiv then 10 else 5)
  else 25

/-- `HealthScorer.score_health`: 0 when the as-of query raises or returns
no rows, otherwise the four checks summed and capped at 100. -/
def score_health (table : String) (qData qCurrent qAirports : Option (List Record)) :
    Nat :=
  match qData with
  | none => 0
  | some [] => 0
  | some data =>
    let expected := get_expected_count qCurrent
    min (check_record_count data.length expected.1 expected.2 +
         check_required_fields data table +
         (check_foreign_keys table data qAirports).score +
         check_data_distribution data table) 100

/-! ## SmartRestorePointFinder health checks
(`src/algorithms/smart_restore_algorithm.py`) -/

/-- `SmartRestorePointFinder._validate_foreign_keys`: 25 for non-route
tables or empty data; on a failing sub-query 15 (partial credit);
otherwise bands 25 / 20 / 10 / 0. -/
def validate_foreign_keys (table : String) (data : List Record)
    (qAirports : Option (List Record)) : Nat :=
  if table != "routes" || data.isEmpty then 25
  else
    match qAirports.bind (fun aps => aps.mapM (fun a => getF a "airport_id")) with
    | none => 15
    | some validIds =>
      let validRoutes := (data.filter (fun r =>
        match getF r "source_airport_id", getF r "destination_airport_id" with
        | some s, some d => validIds.contains s && validIds.contains d
        | _, _ => false)).length
      let pct : Rat := (validRoutes : Rat) / (data.length : Rat)
      if 95 / 100 ≤ pct then 25
      else if 8 / 10 ≤ pct then 20
      else if 6 / 10 ≤ pct then 10
      else 0

/-- `SmartRestorePointFinder._validate_health_at_timestamp` record-count
branch (the variant with the extra 5-point band). -/
def finder_check_record_count (actual mn mx : Nat) : Nat :=
  if mn ≤ actual ∧ actual ≤ mx then 25
  else if (mn : Rat) * (8 / 10) ≤ (actual : Rat) then 15
  else if 0 < actual then 5
  else 0

/-! ## The binary search through time

The finder probes health scores at chosen instants; the store behind those
probes is abstracted as a function `score : Time → Nat`, exactly the shape
the synthetic-store claims quantify over.  Fuel counts the remaining
iterations (`max_iterations = 15`). -/

structure BSState where
  lo : Time
  hi : Time
  best : Time
  bestScore : Nat
  iterations : Nat

/-- The `while` loop of `_binary_search_through_time`: halve the window at
its midpoint, keep the best-scoring probe, and recurse right when the
midpoint is healthy (score ≥ 80), left otherwise, until the window is at
most 300 seconds or 15 iterations have run. -/
def binary_search_loop (score : Time → Nat) : Nat → BSState → BSState
  | 0, s => s
  | fuel + 1, s =>
    if s.hi - s.lo > 300 then
      let mid := s.lo + (s.hi - s.lo) / 2
      let sc := score mid
      binary_search_loop score fuel
        { lo := if 80 ≤ sc then mid else s.lo
          hi := if 80 ≤ sc then s.hi else mid
          best := if s.bestScore < sc then mid else s.best
          bestScore := if s.bestScore < sc then sc else s.bestScore
          iterations := s.iterations + 1 }
    else s

/-- Number of probes of `_find_exact_boundary`'s minute walk
(`current = start; while current ≤ end: current += 1 min`). -/
def refine_count (lo hi : Time) : Nat :=
  if hi < lo then 0 else (Int.floor ((hi - lo) / 60)).toNat + 1

/-- The instants `_find_exact_boundary` probes. -/
def refine_probes (lo hi : Time) : List Time :=
  (List.range (refine_count lo hi)).map (fun (i : Nat) => lo + 60 * ((i : Nat) : Time))

/-- `SmartRestorePointFinder._find_exact_boundary`: walk the window minute
by minute keeping the first strictly-best-scoring instant, starting from
`(start_time, 0)`. -/
def find_exact_boundary (score : Time → Nat) (lo hi : Time) : Time :=
  ((refine_probes lo hi).foldl
    (fun best t => if best.2 < score t then (t, score t) else best) (lo, 0)).1

/-- `_binary_search_through_time` followed by the refinement step of
`find_optimal_restore_point`; returns the chosen timestamp, the number of
binary-search iterations, and the number of refinement probes. -/
def binary_search_through_time (score : Time → Nat) (start_time end_time : Time) :
    Time × Nat × Nat :=
  let s := binary_search_loop score 15
    ⟨start_time, end_time, start_time, 0, 0⟩
  if s.hi - s.lo ≤ 600 then
    (find_exact_boundary score s.lo s.hi, s.iterations, refine_count s.lo s.hi)
  else (s.best, s.iterations, 0)

/-- `find_optimal_restore_point`'s timestamp selection over the fixed
24-hour window `[now − 24 h, now]`. -/
def find_optimal_restore_point (score : Time → Nat) (now : Time) :
    Time × Nat × Nat :=
  binary_search_through_time score (now - 86400) now

/-! ## Change classification (`src/core/selective_restore.py`) -/

/-- The payload dict of one change as built by `analyze_changes`; fields
the source leaves out of a given change kind are `none` (so `dict.get`
returns `None` on them, as in the source). -/
structure ChangeData where
  id : Value
  historical_data : Option Record := none
  current_data : Option Record := none
  changed_fields : List FieldChange := []
  creation_timestamp : Option Time := none
  modification_timestamp : Option Time := none
  deletion_timestamp : Option Time := none
deriving DecidableEq

/-- A change tagged with its type (`added` / `deleted` / `modified`). -/
structure Change where
  type : String
  data : ChangeData
deriving DecidableEq

/-- The change set produced by `analyze_changes`. -/
structure ChangeSet where
  deleted_records : List ChangeData
  added_records : List ChangeData
  modified_records : List ChangeData
deriving DecidableEq

/-- `all_changes` of `_apply_rules`: deleted, then added, then modified. -/
def all_changes (cs : ChangeSet) : List Change :=
  cs.deleted_records.map (fun d => ⟨"deleted", d⟩) ++
    cs.added_records.map (fun d => ⟨"added", d⟩) ++
    cs.modified_records.map (fun d => ⟨"modified", d⟩)

/-- A user classification rule; absent predicate keys are `none`. -/
structure Rule where
  change_type : Option String := none
  field_pattern : Option String := none
  time_range : Option (Time × Time) := none
  action : String
deriving DecidableEq

/-- Whether `pat` occurs at the front of `hay`. -/
def seqStarts : List Char → List Char → Bool
  | [], _ => true
  | _ :: _, [] => false
  | p :: ps, h :: hs => p == h && seqStarts ps hs

/-- Python's substring test `pat in hay` on the character sequences. -/
def seqContains (hay pat : List Char) : Bool :=
  match hay with
  | [] => pat.isEmpty
  | _ :: hs => seqStarts pat hay || seqContains hs pat

/-- `SelectiveRestoreEngine._matches_rule`.  Note the source SKIPS the
time-range test when the change has neither creation nor modification
timestamp (`if change_time:`), so such a rule still matches. -/
def matches_rule (change : Change) (rule : Rule) : Bool :=
  (match rule.change_type with
   | some ct => change.type == ct
   | none => true) &&
  (match rule.field_pattern with
   | some p =>
     if change.type == "modified" then
       change.data.changed_fields.any (fun cf => seqContains cf.field.data p.data)
     else true
   | none => true) &&
  (match rule.time_range with
   | some tr =>
     match change.data.creation_timestamp.orElse
         (fun _ => change.data.modification_timestamp) with
     | some t => decide (tr.1 ≤ t ∧ t ≤ tr.2)
     | none => true
   | none => true)

structure Classification where
  keep_records : List Change
  restore_records : List Change
  uncertain_records : List Change
deriving DecidableEq

/-- One iteration of `_apply_rules`' loop: route the change by its first
matching rule (`break` on match); an action other than keep/restore
appends it nowhere; no match lands in uncertain. -/
def rule_route (rules : List Rule) (cl : Classification) (c : Change) : Classification :=
  match rules.find? (fun r => matches_rule c r) with
  | some r =>
    if r.action == "keep" then
      { cl with keep_records := cl.keep_records ++ [c] }
    else if r.action == "restore" then
      { cl with restore_records := cl.restore_records ++ [c] }
    else cl
  | none => { cl with uncertain_records := cl.uncertain_records ++ [c] }

/-- `SelectiveRestoreEngine._apply_rules`: first matching rule wins. -/
def apply_rules (cs : ChangeSet) (rules : List Rule) : Classification :=
  (all_changes cs).foldl (rule_route rules) ⟨[], [], []⟩

/-- Heuristic 1's recency test: a creation timestamp within the last hour;
a missing timestamp fails the test. -/
def recent_addition (current_time : Time) (d : ChangeData) : Bool :=
  match d.creation_timestamp with
  | some t => decide (current_time - t < 3600)
  | none => false

/-- Heuristic 3's critical-field test. -/
def touches_critical_fields (d : ChangeData) : Bool :=
  d.changed_fields.any (fun cf => ["name", "iata_code", "price"].contains cf.field)

/-- `SelectiveRestoreEngine._heuristic_analysis`: recent additions → keep,
stale or undatable additions → uncertain; mass deletions (> 10) → restore
(timestamps never consulted), small deletion sets → uncertain; modified
records → restore when a critical field changed, else keep. -/
def heuristic_analysis (cs : ChangeSet) (current_time : Time) : Classification :=
  { keep_records :=
      (cs.added_records.filter (recent_addition current_time)).map (fun d => ⟨"added", d⟩) ++
        (cs.modified_records.filter (fun d => !touches_critical_fields d)).map
          (fun d => ⟨"modified", d⟩)
    restore_records :=
      (if 10 < cs.deleted_records.length then
        cs.deleted_records.map (fun d => (⟨"deleted", d⟩ : Change))
      else []) ++
        (cs.modified_records.filter touches_critical_fields).map (fun d => ⟨"modified", d⟩)
    uncertain_records :=
      (cs.added_records.filter (fun d => !recent_addition current_time d)).map
          (fun d => ⟨"added", d⟩) ++
        (if 10 < cs.deleted_records.length then []
         else cs.deleted_records.map (fun d => (⟨"deleted", d⟩ : Change))) }

/-- `SelectiveRestoreEngine.classify_changes`: Python's `if rules:` sends
`None` AND the empty list to the heuristics. -/
def classify_changes (cs : ChangeSet) (rules : Option (List Rule))
    (current_time : Time) : Classification :=
  match rules with
  | some rs => if rs.isEmpty then heuristic_analysis cs current_time else apply_rules cs rs
  | none => heuristic_analysis cs current_time

/-! ## The selective restore executor -/

/-- A SQL table within the store: rows addressed by primary-key value. -/
abbrev Table := List (Value × Record)

/-- `REPLACE INTO`: delete every row carrying the key, then insert. -/
def replace_into (k : Value) (r : Record) (t : Table) : Table :=
  t.filter (fun kr => kr.1 != k) ++ [(k, r)]

/-- One iteration of `_execute_batch_restore`'s loop: deleted and modified
changes are written as `REPLACE INTO` of the provenance-stripped
historical payload; other types are skipped.  `none` models the statement
raising (missing `historical_data` key, or a payload without the
primary-key column). -/
def restore_write (pk : Field) (item : Change) (t : Table) : Option Table :=
  if item.type = "deleted" ∨ item.type = "modified" then
    match item.data.historical_data with
    | none => none
    | some hist =>
      let clean := stripRec hist
      match getF clean pk with
      | none => none
      | some k => some (replace_into k clean t)
  else some t

/-- `_execute_batch_restore` over one batch: the written table and the
`records_processed` count. -/
def execute_batch_restore (pk : Field) (batch : List Change) (t : Table) :
    Option (Table × Nat) :=
  batch.foldlM (fun acc item =>
    (restore_write pk item acc.1).map (fun t' =>
      (t', acc.2 + (if item.type = "deleted" ∨ item.type = "modified" then 1 else 0))))
    (t, 0)

/-- `_validate_batch_integrity`: true iff the duplicate-primary-key query
runs (`raises = false`) and finds no duplicates. -/
def validate_batch_integrity (t : Table) (raises : Bool) : Bool :=
  !raises && decide (t.map (·.1)).Nodup

/-- `_final_validation_check`: the distinct ids of deleted/modified
changes must be matched by exactly as many rows; `raises` models the query
failing. -/
def final_validation_check (restore_list : List Change) (t : Table)
    (raises : Bool) : Bool :=
  if raises then false
  else
    let expected_ids := ((restore_list.filter (fun c =>
      c.type = "deleted" ∨ c.type = "modified")).map (fun c => c.data.id)).dedup
    (t.filter (fun kr => expected_ids.contains kr.1)).length = expected_ids.length

/-- Split into batches of `n` (`restore_list[i : i + batch_size]`). -/
def chunksAux (n : Nat) : Nat → List Change → List (List Change)
  | 0, _ => []
  | _ + 1, [] => []
  | fuel + 1, c :: rest => (c :: rest).take n :: chunksAux n fuel ((c :: rest).drop n)

def chunks (n : Nat) (l : List Change) : List (List Change) :=
  chunksAux n l.length l

structure ExecResult where
  success : Bool
  records_processed : Nat
  batches_completed : Nat
  errors : List String
deriving DecidableEq

/-- The batch loop of `execute_selective_restore`, inside the transaction:
returns the pending table when every batch wrote and validated, `none` as
soon as a batch raises (`batchRaises`), a write fails, or an integrity
probe fails; alongside the processed/completed counters the result dict
accumulates. -/
def run_batches (pk : Field) (batchRaises integrityRaises : Nat → Bool) :
    Nat → Table → List (List Change) → Option Table × Nat × Nat
  | _, t, [] => (some t, 0, 0)
  | idx, t, b :: rest =>
    if batchRaises idx then (none, 0, 0)
    else
      match execute_batch_restore pk b t with
      | none => (none, 0, 0)
      | some (t', n) =>
        if validate_batch_integrity t' (integrityRaises idx) then
          match run_batches pk batchRaises integrityRaises (idx + 1) t' rest with
          | (res, pr, bc) => (res, n + pr, 1 + bc)
        else (none, n, 1)

/-- `SelectiveRestoreEngine.execute_selective_restore`: refuse when the
validator said unsafe; otherwise run all batches of 100 inside one
transaction, roll back (returning the pre-operation table) on any batch,
integrity, or final-validation failure, and commit the pending table only
when everything passed. -/
def execute_selective_restore (pk : Field) (restore_list : List Change)
    (safe_to_restore : Bool) (batchRaises integrityRaises : Nat → Bool)
    (finalRaises : Bool) (st : Table) : ExecResult × Table :=
  if !safe_to_restore then
    (⟨false, 0, 0, ["Validation failed - restore aborted"]⟩, st)
  else
    match run_batches pk batchRaises integrityRaises 1 st (chunks 100 restore_list) with
    | (none, pr, bc) => (⟨false, pr, bc, ["batch failure"]⟩, st)
    | (some t', pr, bc) =>
      if final_validation_check restore_list t' finalRaises then
        (⟨true, pr, bc, []⟩, t')
      else (⟨false, pr, bc, ["Final validation failed"]⟩, st)

/-- The whole restore set applied in order, ignoring batch boundaries:
the all-batches-committed outcome. -/
def apply_restore_list (pk : Field) (l : List Change) (t : Table) : Option Table :=
  l.foldlM (fun t c => restore_write pk c t) t

/-! ## TemporalEngine.restore_records (`core/temporal_engine.py`) -/

/-- `field in record`: used to decide between updating a column in place
and appending it. -/
def set_field (r : Record) (f : Field) (v : Value) : Record :=
  if r.any (fun kv => kv.1 == f) then
    r.map (fun kv => if kv.1 == f then (f, v) else kv)
  else r ++ [(f, v)]

/-- `ON DUPLICATE KEY UPDATE col = VALUES(col)` for every non-key column
of the payload: update those columns of the existing row, leave the rest. -/
def update_row (old : Record) (clean : Record) (pk : Field) : Record :=
  clean.foldl (fun acc kv => if kv.1 == pk then acc else set_field acc kv.1 kv.2) old

/-- One `INSERT ... ON DUPLICATE KEY UPDATE` (or `INSERT IGNORE` when the
payload has no non-key column) of a provenance-stripped payload.  `none`
models the statement failing for a payload without the primary-key
column. -/
def upsert (pk : Field) (clean : Record) (t : Table) : Option Table :=
  match getF clean pk with
  | none => none
  | some k =>
    match dlookup t k with
    | none => some (t ++ [(k, clean)])
    | some _ =>
      if clean.all (fun kv => kv.1 == pk) then some t
      else some (t.map (fun kr => if kr.1 == k then (kr.1, update_row kr.2 clean pk) else kr))

structure RestoreResult where
  success : Bool
  restored_count : Nat
  errors : List String
deriving DecidableEq

/-- `TemporalEngine.restore_records`: strip provenance fields and upsert
each record inside one transaction; on any failure roll back and report
`success = False` with `restored_count = 0`. -/
def restore_records (table : String) (records : List Record) (st : Table) :
    RestoreResult × Table :=
  match tablesPk table with
  | none => (⟨false, 0, ["unknown table"]⟩, st)
  | some pk =>
    match records.foldlM (fun t r => upsert pk (stripRec r) t) st with
    | none => (⟨false, 0, ["constraint violation"]⟩, st)
    | some t' => (⟨true, records.length, []⟩, t')

/-- The rows a `query_current` of the table returns. -/
def currentRows (t : Table) : List Record := t.map (·.2)

/-- The primary-key values carried by a restore payload. -/
def payloadKeys (pk : Field) (records : List Record) : List Value :=
  records.filterMap (fun r => getF (stripRec r) pk)

/-! ## Auxiliary definitions used by the statements -/

/-- Swap the two sides of a field change. -/
def swapChange (c : FieldChange) : FieldChange := ⟨c.field, c.after, c.before⟩

/-- Swap the direction of a modified entry. -/
def swapEntry (e : ModEntry) : ModEntry := ⟨e.after, e.before, e.changes.map swapChange⟩

/-- Strip provenance fields from every record a diff result carries
(field-change lists mention no provenance field and are untouched). -/
def stripDiff (d : DiffResult) : DiffResult :=
  ⟨d.added.map stripRec, d.deleted.map stripRec,
    d.modified.map (fun m => ⟨stripRec m.before, stripRec m.after, m.changes⟩)⟩

/-- The record-count bands exactly as claim C6 words them: 25 inside
`[0.8·B, 1.2·B]`, 15 when `n ≥ 0.8·B` but outside, 5 for any other
nonempty snapshot, 0 when empty.  Stated over naturals via
`0.8·B ≤ n ↔ 4·B ≤ 5·n`. -/
def claimRecordCountScore (n B : Nat) : Nat :=
  if 4 * B ≤ 5 * n ∧ 5 * n ≤ 6 * B then 25
  else if 4 * B ≤ 5 * n then 15
  else if 0 < n then 5
  else 0

/-- The record-count bands as the amended claim words them: 25 inside
`[int(0.8·B), int(1.2·B)]`, 15 when `n ≥ 0.8 · int(0.8·B)` (stated over
naturals via `x ≥ 0.8·m ↔ 4·m ≤ 5·x`), and 0 otherwise — there is no
5-point band. -/
def amendedRecordCountScore (n B : Nat) : Nat :=
  if 4 * B / 5 ≤ n ∧ n ≤ 6 * B / 5 then 25
  else if 4 * (4 * B / 5) ≤ 5 * n then 15
  else 0

/-- The synthetic health score of the boundary claims: 100 strictly
before the disaster instant, 0 at and after it. -/
def stepScore (td : Time) : Time → Nat := fun t => if t < td then 100 else 0

/-- The action of the first rule matching a change, if any. -/
def pickAction (rules : List Rule) (c : Change) : Option String :=
  (rules.find? (fun r => matches_rule c r)).map (·.action)

/-! # Lemmas and theorems -/

/-! ## General list lemmas -/

lemma any_congr_mem {α : Type} {l : List α} {p q : α → Bool}
    (h : ∀ x ∈ l, p x = q x) : l.any p = l.any q := by
  induction l with
  | nil => rfl
  | cons a l ih =>
    simp only [List.any_cons, h a (by simp)]
    rw [ih (fun x hx => h x (by simp [hx]))]

lemma filterMap_congr_mem {α β : Type} {l : List α} {f g : α → Option β}
    (h : ∀ x ∈ l, f x = g x) : l.filterMap f = l.filterMap g := by
  induction l with
  | nil => rfl
  | cons a l ih =>
    simp only [List.filterMap_cons, h a (by simp)]
    rw [ih (fun x hx => h x (by simp [hx]))]

lemma filter_congr_mem {α : Type} {l : List α} {p q : α → Bool}
    (h : ∀ x ∈ l, p x = q x) : l.filter p = l.filter q := by
  induction l with
  | nil => rfl
  | cons a l ih =>
    simp only [List.filter_cons, h a (by simp)]
    rw [ih (fun x hx => h x (by simp [hx]))]

lemma any_filter {α : Type} (l : List α) (p q : α → Bool) :
    (l.filter p).any q = l.any (fun x => p x && q x) := by
  induction l with
  | nil => rfl
  | cons a l ih =>
    by_cases hp : p a <;> simp [List.filter_cons, hp, ih]

lemma filterMap_filter {α β : Type} (l : List α) (p : α → Bool) (f : α → Option β) :
    (l.filter p).filterMap f = l.filterMap (fun x => if p x then f x else none) := by
  induction l with
  | nil => rfl
  | cons a l ih =>
    by_cases hp : p a <;> simp [List.filter_cons, List.filterMap_cons, hp, ih]

/-! ## Health scorer: record-count bands (claim C6) -/

lemma pyInt_mul_div (B a b : Nat) :
    pyInt ((B : Rat) * ((a : Rat) / (b : Rat))) = a * B / b := by
  have h1 : (B : Rat) * ((a : Rat) / (b : Rat)) = ((a * B : Nat) : Rat) / ((b : Nat) : Rat) := by
    push_cast
    ring
  rw [pyInt, h1, Int.floor_toNat, Nat.floor_div_nat, Nat.floor_natCast]

lemma rat_mul_eight_tenths_le (m n : Nat) :
    ((m : Rat) * (8 / 10) ≤ (n : Rat)) ↔ 4 * m ≤ 5 * n := by
  rw [show (8 / 10 : Rat) = 4 / 5 by norm_num]
  rw [mul_div_assoc' (m : Rat) 4 5, div_le_iff₀ (by norm_num : (0 : Rat) < 5)]
  constructor
  · intro h
    exact_mod_cast (by push_cast at h ⊢; linarith : ((4 * m : Nat) : Rat) ≤ ((5 * n : Nat) : Rat))
  · intro h
    have : ((4 * m : Nat) : Rat) ≤ ((5 * n : Nat) : Rat) := by exact_mod_cast h
    push_cast at this ⊢
    linarith

/-- `_check_record_count` against the baseline taken from a successful
current-count query equals the natural-arithmetic band function. -/
lemma check_record_count_amended (n : Nat) (rows : List Record) :
    check_record_count n (get_expected_count (some rows)).1
        (get_expected_count (some rows)).2
      = amendedRecordCountScore n rows.length := by
  have h8 : ((8 : Nat) : Rat) / ((10 : Nat) : Rat) = (8 / 10 : Rat) := by norm_num
  have h12 : ((12 : Nat) : Rat) / ((10 : Nat) : Rat) = (12 / 10 : Rat) := by norm_num
  have hmn : (get_expected_count (some rows)).1 = 4 * rows.length / 5 := by
    show pyInt ((rows.length : Rat) * (8 / 10)) = _
    rw [← h8, pyInt_mul_div]
    omega
  have hmx : (get_expected_count (some rows)).2 = 6 * rows.length / 5 := by
    show pyInt ((rows.length : Rat) * (12 / 10)) = _
    rw [← h12, pyInt_mul_div]
    omega
  rw [check_record_count, amendedRecordCountScore, hmn, hmx]
  by_cases h1 : 4 * rows.length / 5 ≤ n ∧ n ≤ 6 * rows.length / 5
  · rw [if_pos h1, if_pos h1]
  · rw [if_neg h1, if_neg h1]
    by_cases h2 : 4 * (4 * rows.length / 5) ≤ 5 * n
    · rw [if_pos ((rat_mul_eight_tenths_le _ _).mpr h2), if_pos h2]
    · rw [if_neg (fun hc => h2 ((rat_mul_eight_tenths_le _ _).mp hc)), if_neg h2]

/-- C6 (counterexample): with baseline `B = 10` the code band is
`[int(0.8·10), int(1.2·10)] = [8, 12]`, and a snapshot of `n = 7` records
scores 15 (because `7 ≥ 8 · 0.8 = 6.4`), while the claim's bands
(`n ≥ 0.8·B` fails, `n > 0` holds) award 5. -/
theorem C6_counterexample :
    check_record_count 7
        (get_expected_count (some (List.replicate 10 [("airport_id", 1)]))).1
        (get_expected_count (some (List.replicate 10 [("airport_id", 1)]))).2 = 15 ∧
    claimRecordCountScore 7 10 = 5 := by
  constructor
  · rw [check_record_count_amended]
    decide
  · decide

/-- C6 (amended): `HealthScorer._check_record_count` scores 25 inside
`[int(0.8·B), int(1.2·B)]`, 15 when `n ≥ 0.8 · int(0.8·B)`, and 0
otherwise — there is no 5-point band for merely nonempty snapshots; an
empty (or unreadable) snapshot scores 0 at `score_health` level before
the check runs. -/
theorem C6_amended (n : Nat) (rows : List Record) (table : String)
    (qc qa : Option (List Record)) :
    check_record_count n (get_expected_count (some rows)).1
        (get_expected_count (some rows)).2
      = amendedRecordCountScore n rows.length ∧
    score_health table (some []) qc qa = 0 ∧
    score_health table none qc qa = 0 :=
  ⟨check_record_count_amended n rows, rfl, rfl⟩

/-- C7 (counterexample): when the airports sub-query raises,
`HealthScorer._check_foreign_keys` scores 10, not the claimed 15; the
finder's `_validate_foreign_keys` is the variant that scores 15. -/
theorem C7_counterexample :
    (check_foreign_keys "routes" [[("route_id", 1)]] none).score = 10 ∧
    (check_foreign_keys "routes" [[("route_id", 1)]] none).score ≠ 15 ∧
    validate_foreign_keys "routes" [[("route_id", 1)]] none = 15 := by
  refine ⟨rfl, ?_, rfl⟩
  decide

/-- C7 (amended): on a failed referential-integrity sub-query,
`HealthScorer._check_foreign_keys` scores 10 flagged `unknown` for every
snapshot, while `SmartRestorePointFinder._validate_foreign_keys` scores
15 for every nonempty snapshot (and 25 for an empty one, which returns
before the sub-query is attempted). -/
theorem C7_amended (data : List Record) :
    (check_foreign_keys "routes" data none).score = 10 ∧
    (check_foreign_keys "routes" data none).fkStatus = "unknown" ∧
    validate_foreign_keys "routes" data none = (if data.isEmpty then 25 else 15) := by
  refine ⟨rfl, rfl, ?_⟩
  by_cases he : data.isEmpty <;> simp [validate_foreign_keys, he]

/-! ## The binary search through time (claims C2, C5) -/

/-- Each executed iteration exactly halves the window (the midpoint split
is symmetric), so after `k` iterations the window is `w / 2^k`; the loop
runs while the window exceeds 300 s and fuel remains. -/
lemma binary_search_loop_spec (score : Time → Nat) :
    ∀ (fuel : Nat) (s : BSState),
      ∃ k : Nat,
        (binary_search_loop score fuel s).iterations = s.iterations + k ∧
        (binary_search_loop score fuel s).hi - (binary_search_loop score fuel s).lo
          = (s.hi - s.lo) / 2 ^ k ∧
        k ≤ fuel ∧
        (k = fuel ∨
          (binary_search_loop score fuel s).hi - (binary_search_loop score fuel s).lo ≤ 300) ∧
        ∀ j < k, 300 < (s.hi - s.lo) / 2 ^ j := by
  intro fuel
  induction fuel with
  | zero =>
    intro s
    exact ⟨0, by simp [binary_search_loop], by simp [binary_search_loop],
      Nat.le_refl 0, Or.inl rfl, by omega⟩
  | succ fuel ih =>
    intro s
    rw [binary_search_loop]
    by_cases hw : s.hi - s.lo > 300
    · rw [if_pos hw]
      set mid := s.lo + (s.hi - s.lo) / 2 with hmid
      set s' : BSState :=
        { lo := if 80 ≤ score mid then mid else s.lo
          hi := if 80 ≤ score mid then s.hi else mid
          best := if s.bestScore < score mid then mid else s.best
          bestScore := if s.bestScore < score mid then score mid else s.bestScore
          iterations := s.iterations + 1 } with hs'
      have hw' : s'.hi - s'.lo = (s.hi - s.lo) / 2 := by
        by_cases hsc : 80 ≤ score mid <;>
          simp only [hs', hmid, if_pos, if_neg, hsc, if_true, if_false] <;> ring
      obtain ⟨k, hit, hwk, hkf, hdis, hgt⟩ := ih s'
      refine ⟨k + 1, ?_, ?_, by omega, ?_, ?_⟩
      · rw [hit]
        simp [hs']
        omega
      · rw [hwk, hw', pow_succ]
        rw [div_div]
        ring_nf
      · rcases hdis with h | h
        · exact Or.inl (by omega)
        · exact Or.inr h
      · intro j hj
        cases j with
        | zero => simpa using hw
        | succ j =>
          have h := hgt j (by omega)
          rw [hw', div_div] at h
          rw [pow_succ, mul_comm]
          exact h
    · rw [if_neg hw]
      exact ⟨0, by simp, by simp, Nat.zero_le _, Or.inr (by linarith), by omega⟩

/-- Over the fixed 24-hour window the loop always runs exactly 9
iterations and leaves a window of 168.75 s, whatever the probed scores. -/
lemma binary_search_loop_24h (score : Time → Nat) (now : Time) :
    (binary_search_loop score 15 ⟨now - 86400, now, now - 86400, 0, 0⟩).iterations = 9 ∧
    (binary_search_loop score 15 ⟨now - 86400, now, now - 86400, 0, 0⟩).hi -
      (binary_search_loop score 15 ⟨now - 86400, now, now - 86400, 0, 0⟩).lo = 675 / 4 := by
  obtain ⟨k, hit, hwk, hkf, hdis, hgt⟩ :=
    binary_search_loop_spec score 15 ⟨now - 86400, now, now - 86400, 0, 0⟩
  have hw0 : now - (now - 86400) = (86400 : Rat) := by ring
  rw [hw0] at hwk hgt
  have hk9 : k = 9 := by
    have hle : k ≤ 9 := by
      by_contra hgt9
      have := hgt 9 (by omega)
      norm_num at this
    have hge : 9 ≤ k := by
      rcases hdis with h | h
      · omega
      · rw [hwk] at h
        by_contra hlt
        have h2k : (2 : Rat) ^ k ≤ 2 ^ 8 := by
          exact pow_le_pow_right₀ (by norm_num) (by omega)
        have hpos : (0 : Rat) < 2 ^ k := by positivity
        rw [div_le_iff₀ hpos] at h
        nlinarith
    omega
  subst hk9
  constructor
  · rw [hit]
  · rw [hwk]
    norm_num

/-- C5: on every finder run the binary-search loop performs at most 15
iterations (in fact exactly 9 over the 24-hour window), the refinement
walk at most 10 probes (in fact 3), and the total probe count is at most
25 (in fact 12) — for every scoring behaviour of the store. -/
theorem C5_probe_bound (score : Time → Nat) (now : Time) :
    (find_optimal_restore_point score now).2.1 ≤ 15 ∧
    (find_optimal_restore_point score now).2.2 ≤ 10 ∧
    (find_optimal_restore_point score now).2.1 +
      (find_optimal_restore_point score now).2.2 ≤ 25 := by
  obtain ⟨hit, hw⟩ := binary_search_loop_24h score now
  rw [find_optimal_restore_point, binary_search_through_time]
  set s := binary_search_loop score 15 ⟨now - 86400, now, now - 86400, 0, 0⟩
  have h600 : s.hi - s.lo ≤ 600 := by rw [hw]; norm_num
  rw [if_pos h600]
  have hrc : refine_count s.lo s.hi = 3 := by
    rw [refine_count]
    have hlt : ¬ s.hi < s.lo := by
      intro h
      have : s.hi - s.lo < 0 := by linarith
      rw [hw] at this
      norm_num at this
    rw [if_neg hlt]
    have : (s.hi - s.lo) / 60 = (45 / 16 : Rat) := by rw [hw]; norm_num
    rw [this]
    have : Int.floor ((45 / 16 : Rat)) = 2 := by
      rw [Int.floor_eq_iff]
      norm_num
    rw [this]
    rfl
  rw [hrc, hit]
  refine ⟨by norm_num, by norm_num, by norm_num⟩

/-- With the synthetic step score, the loop keeps the disaster instant
strictly right of `lo` and at or left of `hi`. -/
lemma binary_search_loop_invariant (td : Time) :
    ∀ (fuel : Nat) (s : BSState), s.lo < td → td ≤ s.hi →
      (binary_search_loop (stepScore td) fuel s).lo < td ∧
      td ≤ (binary_search_loop (stepScore td) fuel s).hi := by
  intro fuel
  induction fuel with
  | zero => intro s h1 h2; simpa [binary_search_loop] using ⟨h1, h2⟩
  | succ fuel ih =>
    intro s h1 h2
    rw [binary_search_loop]
    by_cases hw : s.hi - s.lo > 300
    · rw [if_pos hw]
      set mid := s.lo + (s.hi - s.lo) / 2 with hmid
      by_cases hd : mid < td
      · have hsc : stepScore td mid = 100 := by simp [stepScore, hd]
        refine ih _ ?_ ?_ <;> simp [hsc, hd, h2]
      · have hsc : stepScore td mid = 0 := by simp [stepScore, hd]
        have h80 : ¬ (80 ≤ stepScore td mid) := by omega
        refine ih _ ?_ ?_ <;> simp [hsc, h80, h1]
        exact le_of_not_lt hd
    · rw [if_neg hw]
      exact ⟨h1, h2⟩

/-- A fold that keeps the strictly best score never moves off an
accumulator already at the maximum. -/
lemma foldl_best_stays {score : Time → Nat} (hbound : ∀ t, score t ≤ 100) :
    ∀ (l : List Time) (acc : Time × Nat), acc.2 = 100 →
      l.foldl (fun best t => if best.2 < score t then (t, score t) else best) acc = acc := by
  intro l
  induction l with
  | nil => intro acc _; rfl
  | cons t l ih =>
    intro acc hacc
    have : ¬ (acc.2 < score t) := by
      rw [hacc]
      exact not_lt.mpr (hbound t)
    simp only [List.foldl_cons, if_neg this]
    exact ih acc hacc

/-- When the left end of the residual window already scores the maximum,
the minute walk returns it. -/
lemma find_exact_boundary_left {score : Time → Nat} (lo hi : Time)
    (h1 : score lo = 100) (hbound : ∀ t, score t ≤ 100) (hle : lo ≤ hi) :
    find_exact_boundary score lo hi = lo := by
  rw [find_exact_boundary, refine_probes]
  have hc : refine_count lo hi = (Int.floor ((hi - lo) / 60)).toNat + 1 := by
    rw [refine_count, if_neg (not_lt.mpr hle)]
  rw [hc, List.range_succ_eq_map]
  simp only [List.map_cons, List.foldl_cons, List.map_map]
  have h0 : lo + 60 * ((0 : Nat) : Rat) = lo := by norm_num
  rw [h0, if_pos (by rw [h1]; omega), h1]
  rw [foldl_best_stays hbound _ (lo, 100) rfl]

/-- C2: for every disaster instant strictly inside the 24-hour window,
with scores 100 strictly before it and 0 from it on, the finder returns a
timestamp within 5 minutes strictly before the disaster, in 9 binary
probes plus 3 refinement probes (within the claimed 15 + 10 budget). -/
theorem C2_boundary (now td : Time) (h1 : now - 86400 < td) (h2 : td ≤ now) :
    td - 300 ≤ (find_optimal_restore_point (stepScore td) now).1 ∧
    (find_optimal_restore_point (stepScore td) now).1 < td ∧
    (find_optimal_restore_point (stepScore td) now).2.1 ≤ 15 ∧
    (find_optimal_restore_point (stepScore td) now).2.2 ≤ 10 := by
  obtain ⟨hit, hw⟩ := binary_search_loop_24h (stepScore td) now
  have hinv := binary_search_loop_invariant td 15
    ⟨now - 86400, now, now - 86400, 0, 0⟩ h1 h2
  rw [find_optimal_restore_point, binary_search_through_time]
  set s := binary_search_loop (stepScore td) 15 ⟨now - 86400, now, now - 86400, 0, 0⟩
  have h600 : s.hi - s.lo ≤ 600 := by rw [hw]; norm_num
  rw [if_pos h600]
  have hslo : stepScore td s.lo = 100 := by simp [stepScore, hinv.1]
  have hbound : ∀ t, stepScore td t ≤ 100 := by
    intro t
    by_cases h : t < td <;> simp [stepScore, h]
  have hle : s.lo ≤ s.hi := by nlinarith [hw]
  rw [find_exact_boundary_left s.lo s.hi hslo hbound hle]
  have hrc : refine_count s.lo s.hi = 3 := by
    rw [refine_count, if_neg (not_lt.mpr hle)]
    have hq : (s.hi - s.lo) / 60 = (45 / 16 : Rat) := by rw [hw]; norm_num
    rw [hq]
    have hf : Int.floor ((45 / 16 : Rat)) = 2 := by
      rw [Int.floor_eq_iff]
      norm_num
    rw [hf]
    rfl
  refine ⟨?_, hinv.1, by rw [hit]; norm_num, by rw [hrc]; norm_num⟩
  show td - 300 ≤ s.lo
  have := hinv.2
  nlinarith [hw]

/-- C2 witness: disaster at noon of the window `[0, 86400]`. -/
theorem C2_boundary_witness :
    (43200 : Time) - 300 ≤ (find_optimal_restore_point (stepScore 43200) 86400).1 ∧
    (find_optimal_restore_point (stepScore 43200) 86400).1 < 43200 ∧
    (find_optimal_restore_point (stepScore 43200) 86400).2.1 ≤ 15 ∧
    (find_optimal_restore_point (stepScore 43200) 86400).2.2 ≤ 10 :=
  C2_boundary 86400 43200 (by norm_num) (by norm_num)

/-! ## Diff engine: dictionaries under unique keys (claim C3) -/

lemma dictInsert_not_mem (k : Value) (r : Record) :
    ∀ d : Dict, k ∉ d.map (·.1) → dictInsert k r d = d ++ [(k, r)] := by
  intro d
  induction d with
  | nil => intro _; rfl
  | cons kv rest ih =>
    intro h
    simp only [List.map_cons, List.mem_cons, not_or] at h
    rw [dictInsert, if_neg (by simp [beq_iff_eq]; exact fun he => h.1 he.symm),
      ih h.2, List.cons_append]

lemma buildDictAux_nodup (pk : Field) :
    ∀ (rows : List Record) (ks : List Value) (acc : Dict),
      keysOf pk rows = some ks → (acc.map (·.1) ++ ks).Nodup →
      buildDictAux pk acc rows = some (acc ++ ks.zip rows) := by
  intro rows
  induction rows with
  | nil =>
    intro ks acc hk hnd
    simp only [keysOf, Option.some.injEq] at hk
    subst hk
    simp [buildDictAux]
  | cons r rest ih =>
    intro ks acc hk hnd
    rw [keysOf] at hk
    cases hgf : getF r pk with
    | none => rw [hgf] at hk; cases hk
    | some k =>
      rw [hgf] at hk
      cases hko : keysOf pk rest with
      | none => rw [hko] at hk; cases hk
      | some ks' =>
        rw [hko] at hk
        cases hk
        have hstep : buildDictAux pk acc (r :: rest)
            = buildDictAux pk (dictInsert k r acc) rest := by
          rw [buildDictAux, hgf]
        rw [hstep]
        have hknotin : k ∉ acc.map (·.1) := by
          have hdisj := (List.nodup_append.mp hnd).2.2
          intro hmem
          exact hdisj hmem (by simp)
        rw [dictInsert_not_mem k r _ hknotin]
        have hnd' : ((acc ++ [(k, r)]).map (·.1) ++ ks').Nodup := by
          simp only [List.map_append, List.map_cons, List.map_nil, List.append_assoc,
            List.singleton_append]
          exact hnd
        rw [ih ks' (acc ++ [(k, r)]) hko hnd']
        simp [List.append_assoc]

lemma buildDict_nodup (pk : Field) (rows : List Record) (ks : List Value)
    (hk : keysOf pk rows = some ks) (hnd : ks.Nodup) :
    buildDict pk rows = some (ks.zip rows) := by
  have := buildDictAux_nodup pk rows ks [] hk (by simpa using hnd)
  simpa [buildDict] using this

lemma keysOf_length (pk : Field) :
    ∀ (rows : List Record) (ks : List Value), keysOf pk rows = some ks →
      ks.length = rows.length := by
  intro rows
  induction rows with
  | nil => intro ks hk; simp only [keysOf, Option.some.injEq] at hk; subst hk; rfl
  | cons r rest ih =>
    intro ks hk
    rw [keysOf] at hk
    cases hgf : getF r pk with
    | none => rw [hgf] at hk; cases hk
    | some k =>
      rw [hgf] at hk
      cases hko : keysOf pk rest with
      | none => rw [hko] at hk; cases hk
      | some ks' =>
        rw [hko] at hk
        cases hk
        simp [ih ks' hko]

lemma mem_zip_getF (pk : Field) :
    ∀ (rows : List Record) (ks : List Value), keysOf pk rows = some ks →
      ∀ kr : Value × Record, kr ∈ ks.zip rows → getF kr.2 pk = some kr.1 ∧ kr.2 ∈ rows := by
  intro rows
  induction rows with
  | nil =>
    intro ks hk kr hm
    simp only [keysOf, Option.some.injEq] at hk
    subst hk
    simp at hm
  | cons r rest ih =>
    intro ks hk kr hm
    rw [keysOf] at hk
    cases hgf : getF r pk with
    | none => rw [hgf] at hk; cases hk
    | some k =>
      rw [hgf] at hk
      cases hko : keysOf pk rest with
      | none => rw [hko] at hk; cases hk
      | some ks' =>
        rw [hko] at hk
        cases hk
        rw [List.zip_cons_cons, List.mem_cons] at hm
        rcases hm with hm | hm
        · subst hm
          exact ⟨hgf, by simp⟩
        · obtain ⟨h1, h2⟩ := ih ks' hko kr hm
          exact ⟨h1, by simp [h2]⟩

lemma dlookup_mem {d : Dict} {k : Value} {r : Record}
    (h : dlookup d k = some r) : (k, r) ∈ d := by
  rw [dlookup] at h
  obtain ⟨kv, hfind, hsnd⟩ := Option.map_eq_some'.mp h
  have hk : kv.1 = k := by
    have := List.find?_some hfind
    simpa [beq_iff_eq] using this
  have hmem := List.mem_of_find?_eq_some hfind
  have : kv = (k, r) := by
    cases kv
    simp_all
  rwa [this] at hmem

lemma dlookup_of_mem {k : Value} {r : Record} :
    ∀ d : Dict, (d.map (·.1)).Nodup → (k, r) ∈ d → dlookup d k = some r := by
  intro d
  induction d with
  | nil => intro _ hm; simp at hm
  | cons kv rest ih =>
    intro hnd hm
    rcases List.mem_cons.mp hm with hm | hm
    · subst hm
      simp [dlookup, List.find?_cons_of_pos]
    · have hne : kv.1 ≠ k := by
        intro he
        have hk1 : k ∈ rest.map (·.1) := by
          exact List.mem_map.mpr ⟨(k, r), hm, rfl⟩
        rw [List.map_cons, List.nodup_cons] at hnd
        exact hnd.1 (he ▸ hk1)
      rw [dlookup, List.find?_cons_of_neg _ (by simp [beq_iff_eq, hne])]
      exact ih ((List.map_cons _ _ _ ▸ hnd).of_cons) hm

lemma rows_different_symm {r1 r2 : Record}
    (h : r1.map (·.1) = r2.map (·.1)) :
    rows_different r2 r1 = rows_different r1 r2 := by
  rw [rows_different, rows_different, ← h]
  apply any_congr_mem
  intro k _
  congr 1
  exact decide_eq_decide.mpr ne_comm

lemma get_field_changes_swap {r1 r2 : Record}
    (h : r1.map (·.1) = r2.map (·.1)) :
    get_field_changes r2 r1 = (get_field_changes r1 r2).map swapChange := by
  rw [get_field_changes, get_field_changes, ← h, List.map_filterMap]
  apply filterMap_congr_mem
  intro k _
  by_cases hik : ignored k
  · simp [hik]
  · by_cases hd : getF r1 k = getF r2 k
    · simp [hik, hd]
    · have hd' : getF r2 k ≠ getF r1 k := fun he => hd he.symm
      simp [hik, hd, hd', swapChange]

lemma swapChange_swapChange (c : FieldChange) : swapChange (swapChange c) = c := by
  cases c
  rfl

lemma swapEntry_swapEntry (e : ModEntry) : swapEntry (swapEntry e) = e := by
  cases e
  simp [swapEntry, List.map_map, Function.comp_def, swapChange_swapChange]

lemma mem_modified_swap (pk : Field) (A B : List Record) (ka kb : List Value)
    (hA : keysOf pk A = some ka) (hB : keysOf pk B = some kb)
    (hkA : ka.Nodup)
    (hdom : ∀ rA ∈ A, ∀ rB ∈ B, getF rA pk = getF rB pk →
      rA.map (·.1) = rB.map (·.1))
    (e : ModEntry)
    (he : e ∈ (ka.zip A).filterMap (fun kr =>
        match dlookup (kb.zip B) kr.1 with
        | none => none
        | some arow =>
          if rows_different kr.2 arow then
            some ⟨kr.2, arow, get_field_changes kr.2 arow⟩
          else none)) :
    swapEntry e ∈ (kb.zip B).filterMap (fun kr =>
        match dlookup (ka.zip A) kr.1 with
        | none => none
        | some arow =>
          if rows_different kr.2 arow then
            some ⟨kr.2, arow, get_field_changes kr.2 arow⟩
          else none) := by
  obtain ⟨kr, hmem, hf⟩ := List.mem_filterMap.mp he
  obtain ⟨k, rA⟩ := kr
  cases hlb : dlookup (kb.zip B) k with
  | none =>
    rw [hlb] at hf
    have hf' : (none : Option ModEntry) = some e := hf
    cases hf'
  | some rB =>
    rw [hlb] at hf
    have hf' : (if rows_different rA rB then
        some (⟨rA, rB, get_field_changes rA rB⟩ : ModEntry) else none) = some e := hf
    by_cases hdiff : rows_different rA rB
    · rw [if_pos hdiff] at hf'
      obtain ⟨hgA, hmA⟩ := mem_zip_getF pk A ka hA (k, rA) hmem
      have hmemB : (k, rB) ∈ kb.zip B := dlookup_mem hlb
      obtain ⟨hgB, hmB⟩ := mem_zip_getF pk B kb hB (k, rB) hmemB
      have hkeys : rA.map (·.1) = rB.map (·.1) :=
        hdom rA hmA rB hmB (hgA.trans hgB.symm)
      have hlA : dlookup (ka.zip A) k = some rA := by
        apply dlookup_of_mem _ _ hmem
        rw [List.map_fst_zip ka A (by rw [keysOf_length pk A ka hA])]
        exact hkA
      apply List.mem_filterMap.mpr
      refine ⟨(k, rB), hmemB, ?_⟩
      have hdiff' : rows_different rB rA := by
        rw [rows_different_symm hkeys]
        exact hdiff
      have hgoal : (if rows_different rB rA then
          some (⟨rB, rA, get_field_changes rB rA⟩ : ModEntry) else none)
          = some (swapEntry e) := by
        rw [if_pos hdiff']
        cases hf'
        rw [swapEntry, get_field_changes_swap hkeys]
      rw [hlA]
      exact hgoal
    · rw [if_neg hdiff] at hf'
      cases hf'

/-- C3 (counterexample): with unique keys on both sides and every record
carrying the primary key, a record pair sharing its key but not its field
set breaks the modified symmetry: `diff(A,B)` reports no modification
while `diff(B,A)` reports one, so the modified entries cannot correspond
modulo before/after swap (the added/deleted symmetry is untouched). -/
theorem C3_counterexample :
    (calculate_diff [[("airport_id", 1)]] [[("airport_id", 1), ("name", 5)]]
      "airports").map (fun d => d.modified.length) = some 0 ∧
    (calculate_diff [[("airport_id", 1), ("name", 5)]] [[("airport_id", 1)]]
      "airports").map (fun d => d.modified.length) = some 1 := by
  constructor
  · rfl
  · rfl

/-- C3 (amended): for record lists with the primary key present on every
record and unique within each list, `calculate_diff` satisfies
`diff(A,B).added = diff(B,A).deleted` and `diff(A,B).deleted =
diff(B,A).added` unconditionally (as lists, hence as sets); and provided
additionally that records sharing a key carry the same field names, the
modified entries of the two directions correspond one-to-one modulo
swapping before and after (without that proviso the one-sided
`_rows_different` walk breaks the correspondence). -/
theorem C3_diff_symmetric (table pk : String) (A B : List Record)
    (ka kb : List Value) (hpk : tablesPk table = some pk)
    (hA : keysOf pk A = some ka) (hB : keysOf pk B = some kb)
    (hkA : ka.Nodup) (hkB : kb.Nodup) :
    ∃ dAB dBA, calculate_diff A B table = some dAB ∧
      calculate_diff B A table = some dBA ∧
      dAB.added = dBA.deleted ∧ dAB.deleted = dBA.added ∧
      ((∀ rA ∈ A, ∀ rB ∈ B, getF rA pk = getF rB pk →
          rA.map (·.1) = rB.map (·.1)) →
        ∀ e, e ∈ dAB.modified ↔ swapEntry e ∈ dBA.modified) := by
  have hbA := buildDict_nodup pk A ka hA hkA
  have hbB := buildDict_nodup pk B kb hB hkB
  have hAB : calculate_diff A B table = some
      { added := ((kb.zip B).filter (fun kr => (dlookup (ka.zip A) kr.1).isNone)).map (·.2)
        deleted := ((ka.zip A).filter (fun kr => (dlookup (kb.zip B) kr.1).isNone)).map (·.2)
        modified := (ka.zip A).filterMap (fun kr =>
          match dlookup (kb.zip B) kr.1 with
          | none => none
          | some arow =>
            if rows_different kr.2 arow then
              some ⟨kr.2, arow, get_field_changes kr.2 arow⟩
            else none) } := by
    simp only [calculate_diff, hpk, hbA, hbB]
  have hBA : calculate_diff B A table = some
      { added := ((ka.zip A).filter (fun kr => (dlookup (kb.zip B) kr.1).isNone)).map (·.2)
        deleted := ((kb.zip B).filter (fun kr => (dlookup (ka.zip A) kr.1).isNone)).map (·.2)
        modified := (kb.zip B).filterMap (fun kr =>
          match dlookup (ka.zip A) kr.1 with
          | none => none
          | some arow =>
            if rows_different kr.2 arow then
              some ⟨kr.2, arow, get_field_changes kr.2 arow⟩
            else none) } := by
    simp only [calculate_diff, hpk, hbB, hbA]
  refine ⟨_, _, hAB, hBA, rfl, rfl, ?_⟩
  intro hdom e
  constructor
  · intro he
    exact mem_modified_swap pk A B ka kb hA hB hkA hdom e he
  · intro he
    have hdom' : ∀ rB ∈ B, ∀ rA ∈ A, getF rB pk = getF rA pk →
        rB.map (·.1) = rA.map (·.1) :=
      fun rB hmB rA hmA he' => (hdom rA hmA rB hmB he'.symm).symm
    have := mem_modified_swap pk B A kb ka hB hA hkB hdom' (swapEntry e) he
    rwa [swapEntry_swapEntry] at this

/-- C3 witness: two single-record lists sharing key 1 with equal field
sets, differing in `name`. -/
theorem C3_diff_symmetric_witness :
    ∃ dAB dBA,
      calculate_diff [[("airport_id", 1), ("name", 5)]]
        [[("airport_id", 1), ("name", 6)]] "airports" = some dAB ∧
      calculate_diff [[("airport_id", 1), ("name", 6)]]
        [[("airport_id", 1), ("name", 5)]] "airports" = some dBA ∧
      dAB.added = dBA.deleted ∧ dAB.deleted = dBA.added ∧
      ((∀ rA ∈ [[(("airport_id" : Field), (1 : Value)), ("name", 5)]],
          ∀ rB ∈ [[(("airport_id" : Field), (1 : Value)), ("name", 6)]],
          getF rA "airport_id" = getF rB "airport_id" →
            rA.map (·.1) = rB.map (·.1)) →
        ∀ e, e ∈ dAB.modified ↔ swapEntry e ∈ dBA.modified) :=
  C3_diff_symmetric "airports" "airport_id"
    [[("airport_id", 1), ("name", 5)]] [[("airport_id", 1), ("name", 6)]]
    [1] [1] rfl rfl rfl (by decide) (by decide)

/-! ## Provenance neutrality of the temporal-engine diff (claim C4) -/

lemma getF_cons (kv : Field × Value) (rest : Record) (f : Field) :
    getF (kv :: rest) f = if kv.1 == f then some kv.2 else getF rest f := by
  rw [getF]
  by_cases h : (kv.1 == f)
  · rw [@List.find?_cons_of_pos _ (fun kv => kv.1 == f) kv rest h, if_pos h]
    rfl
  · rw [@List.find?_cons_of_neg _ (fun kv => kv.1 == f) kv rest (by simpa using h), if_neg h]
    rfl

lemma dlookup_cons (kv : Value × Record) (rest : Dict) (k : Value) :
    dlookup (kv :: rest) k = if kv.1 == k then some kv.2 else dlookup rest k := by
  rw [dlookup]
  by_cases h : (kv.1 == k)
  · rw [@List.find?_cons_of_pos _ (fun kv => kv.1 == k) kv rest h, if_pos h]
    rfl
  · rw [@List.find?_cons_of_neg _ (fun kv => kv.1 == k) kv rest (by simpa using h), if_neg h]
    rfl

lemma getF_strip {f : Field} (hf : ignored f = false) :
    ∀ r : Record, getF (stripRec r) f = getF r f := by
  intro r
  induction r with
  | nil => rfl
  | cons kv rest ih =>
    rw [stripRec, List.filter_cons]
    by_cases hik : ignored kv.1
    · have hne : ¬ (kv.1 == f) = true := by
        simp only [beq_iff_eq]
        intro he
        rw [he, hf] at hik
        cases hik
      simp only [hik, Bool.not_true, if_false]
      rw [getF_cons, if_neg hne]
      exact ih
    · have hik' : (!ignored kv.1) = true := by simp [hik]
      rw [if_pos hik', getF_cons, getF_cons]
      by_cases hkf : (kv.1 == f)
      · rw [if_pos hkf, if_pos hkf]
      · rw [if_neg hkf, if_neg hkf]
        exact ih

lemma dictInsert_strip (k : Value) (r : Record) :
    ∀ d : Dict,
      dictInsert k (stripRec r) (d.map (fun kr => (kr.1, stripRec kr.2)))
        = (dictInsert k r d).map (fun kr => (kr.1, stripRec kr.2)) := by
  intro d
  induction d with
  | nil => rfl
  | cons kv rest ih =>
    by_cases hk : (kv.1 == k) <;>
      simp [dictInsert, hk, ih]

lemma buildDictAux_strip (pk : Field) (hpk : ignored pk = false) :
    ∀ (rows : List Record) (acc : Dict),
      buildDictAux pk (acc.map (fun kr => (kr.1, stripRec kr.2))) (rows.map stripRec)
        = (buildDictAux pk acc rows).map (List.map (fun kr => (kr.1, stripRec kr.2))) := by
  intro rows
  induction rows with
  | nil => intro acc; rfl
  | cons r rest ih =>
    intro acc
    rw [List.map_cons]
    cases hg : getF r pk with
    | none =>
      have h1 : buildDictAux pk (acc.map (fun kr => (kr.1, stripRec kr.2)))
          (stripRec r :: rest.map stripRec) = none := by
        rw [buildDictAux, getF_strip hpk, hg]
      have h2 : buildDictAux pk acc (r :: rest) = none := by
        rw [buildDictAux, hg]
      rw [h1, h2]
      rfl
    | some k =>
      have h1 : buildDictAux pk (acc.map (fun kr => (kr.1, stripRec kr.2)))
          (stripRec r :: rest.map stripRec)
          = buildDictAux pk (dictInsert k (stripRec r)
              (acc.map (fun kr => (kr.1, stripRec kr.2)))) (rest.map stripRec) := by
        rw [buildDictAux, getF_strip hpk, hg]
      have h2 : buildDictAux pk acc (r :: rest)
          = buildDictAux pk (dictInsert k r acc) rest := by
        rw [buildDictAux, hg]
      rw [h1, h2, dictInsert_strip, ih]

lemma buildDict_strip (pk : Field) (hpk : ignored pk = false) (rows : List Record) :
    buildDict pk (rows.map stripRec)
      = (buildDict pk rows).map (List.map (fun kr => (kr.1, stripRec kr.2))) := by
  have := buildDictAux_strip pk hpk rows []
  simpa [buildDict] using this

lemma dlookup_strip (k : Value) :
    ∀ d : Dict,
      dlookup (d.map (fun kr => (kr.1, stripRec kr.2))) k = (dlookup d k).map stripRec := by
  intro d
  induction d with
  | nil => rfl
  | cons kv rest ih =>
    rw [List.map_cons, dlookup_cons, dlookup_cons]
    by_cases hk : (kv.1 == k)
    · rw [if_pos hk, if_pos hk]
      rfl
    · rw [if_neg hk, if_neg hk]
      exact ih

lemma stripRec_cons (kv : Field × Value) (rest : Record) :
    stripRec (kv :: rest) = if ignored kv.1 then stripRec rest else kv :: stripRec rest := by
  rw [stripRec, List.filter_cons]
  by_cases hik : ignored kv.1
  · rw [if_neg (by simp [hik]), if_pos hik, stripRec]
  · rw [if_pos (by simp [hik]), if_neg hik, stripRec]

lemma map_fst_stripRec (r : Record) :
    (stripRec r).map (·.1) = (r.map (·.1)).filter (fun k => !ignored k) := by
  induction r with
  | nil => rfl
  | cons kv rest ih =>
    rw [stripRec_cons, List.map_cons, List.filter_cons]
    by_cases hik : ignored kv.1
    · rw [if_pos hik, if_neg (by simp [hik])]
      exact ih
    · rw [if_neg hik, if_pos (by simp [hik]), List.map_cons, ih]

lemma rows_different_strip (r1 r2 : Record) :
    rows_different (stripRec r1) (stripRec r2) = rows_different r1 r2 := by
  rw [rows_different, rows_different, map_fst_stripRec, any_filter]
  apply any_congr_mem
  intro k _
  by_cases hik : ignored k
  · simp [hik]
  · have hikf : ignored k = false := by simpa using hik
    simp [hikf, getF_strip hikf]

lemma get_field_changes_strip (r1 r2 : Record) :
    get_field_changes (stripRec r1) (stripRec r2) = get_field_changes r1 r2 := by
  rw [get_field_changes, get_field_changes, map_fst_stripRec, filterMap_filter]
  apply filterMap_congr_mem
  intro k _
  by_cases hik : ignored k
  · simp [hik]
  · have hikf : ignored k = false := by simpa using hik
    simp [hikf, getF_strip hikf]

lemma rows_different_eq_false {r1 r2 : Record}
    (h : ∀ f, ignored f = false → getF r1 f = getF r2 f) :
    rows_different r1 r2 = false := by
  rw [rows_different]
  rw [List.any_eq_false]
  intro k _
  by_cases hik : ignored k
  · simp [hik]
  · have hikf : ignored k = false := by simpa using hik
    simp [hikf, h k hikf]

/-- The added (and, with arguments swapped, deleted) component of the
stripped diff equals the stripped component of the original diff. -/
lemma added_strip (bd ad : Dict) :
    ((ad.map (fun kr => (kr.1, stripRec kr.2))).filter
        (fun kr => (dlookup (bd.map (fun kr => (kr.1, stripRec kr.2))) kr.1).isNone)).map (·.2)
      = ((ad.filter (fun kr => (dlookup bd kr.1).isNone)).map (·.2)).map stripRec := by
  rw [List.filter_map, List.map_map, List.map_map]
  have hfun : ((fun x : Value × Record => x.2) ∘
      (fun kr : Value × Record => (kr.1, stripRec kr.2)))
      = (stripRec ∘ fun x : Value × Record => x.2) := rfl
  rw [hfun]
  congr 1
  apply filter_congr_mem
  intro kr _
  show (dlookup (bd.map (fun kr => (kr.1, stripRec kr.2))) kr.1).isNone
    = (dlookup bd kr.1).isNone
  rw [dlookup_strip]
  cases dlookup bd kr.1 <;> rfl

/-- The modified component of the stripped diff equals the original
modified entries with their records stripped and changes untouched. -/
lemma modified_strip (bd ad : Dict) :
    (bd.map (fun kr => (kr.1, stripRec kr.2))).filterMap (fun kr =>
        match dlookup (ad.map (fun kr => (kr.1, stripRec kr.2))) kr.1 with
        | none => none
        | some arow =>
          if rows_different kr.2 arow then
            some ⟨kr.2, arow, get_field_changes kr.2 arow⟩
          else none)
      = (bd.filterMap (fun kr =>
          match dlookup ad kr.1 with
          | none => none
          | some arow =>
            if rows_different kr.2 arow then
              some ⟨kr.2, arow, get_field_changes kr.2 arow⟩
            else none)).map
          (fun (m : ModEntry) => (⟨stripRec m.before, stripRec m.after, m.changes⟩ : ModEntry)) := by
  rw [List.filterMap_map, List.map_filterMap]
  apply filterMap_congr_mem
  intro kr _
  show (match dlookup (ad.map (fun kr => (kr.1, stripRec kr.2))) kr.1 with
    | none => none
    | some arow =>
      if rows_different (stripRec kr.2) arow then
        some (⟨stripRec kr.2, arow, get_field_changes (stripRec kr.2) arow⟩ : ModEntry)
      else none) = _
  rw [dlookup_strip]
  cases hd : dlookup ad kr.1 with
  | none => rfl
  | some arow =>
    show (if rows_different (stripRec kr.2) (stripRec arow) then
        some (⟨stripRec kr.2, stripRec arow,
          get_field_changes (stripRec kr.2) (stripRec arow)⟩ : ModEntry)
      else none)
      = Option.map
          (fun (m : ModEntry) =>
            (⟨stripRec m.before, stripRec m.after, m.changes⟩ : ModEntry))
          (if rows_different kr.2 arow then
            some (⟨kr.2, arow, get_field_changes kr.2 arow⟩ : ModEntry)
          else none)
    rw [rows_different_strip, get_field_changes_strip]
    by_cases hr : rows_different kr.2 arow
    · rw [if_pos hr, if_pos hr]
      rfl
    · rw [if_neg hr, if_neg hr]
      rfl

/-- C4 (counterexample): `DiffAnalyzer._calculate_diff` compares whole
row dicts, so a pair agreeing on every data field but differing in the
provenance field `changed_at` IS reported as modified, and stripping the
provenance fields from the inputs changes its output. -/
theorem C4_counterexample :
    (da_calculate_diff [[("airport_id", 1), ("changed_at", 5)]]
        [[("airport_id", 1), ("changed_at", 6)]] "airports").map
        (fun d => d.2.2.length) = some 1 ∧
    (da_calculate_diff ([[("airport_id", 1), ("changed_at", 5)]].map stripRec)
        ([[("airport_id", 1), ("changed_at", 6)]].map stripRec) "airports").map
        (fun d => d.2.2.length) = some 0 := by
  constructor
  · rfl
  · rfl

/-- C4 (amended): `TemporalEngine.calculate_diff` is provenance-neutral —
stripping the provenance fields from both inputs yields exactly the
stripped diff (same added/deleted/modified keys, same field changes), and
its `_rows_different` never reports a pair agreeing on every
non-provenance field; `DiffAnalyzer._calculate_diff`, by contrast,
compares whole dicts, provenance included (see the counterexample). -/
theorem C4_provenance_neutral (table pk : String)
    (hpk : tablesPk table = some pk) (hig : ignored pk = false)
    (A B : List Record) :
    calculate_diff (A.map stripRec) (B.map stripRec) table
      = (calculate_diff A B table).map stripDiff ∧
    ∀ r1 r2 : Record, (∀ f, ignored f = false → getF r1 f = getF r2 f) →
      rows_different r1 r2 = false := by
  refine ⟨?_, fun r1 r2 h => rows_different_eq_false h⟩
  cases hA : buildDict pk A with
  | none =>
    have hA' : buildDict pk (A.map stripRec) = none := by
      rw [buildDict_strip pk hig, hA]
      rfl
    simp only [calculate_diff, hpk, hA, hA', Option.map_none']
  | some bd =>
    have hA' : buildDict pk (A.map stripRec)
        = some (bd.map (fun kr => (kr.1, stripRec kr.2))) := by
      rw [buildDict_strip pk hig, hA]
      rfl
    cases hB : buildDict pk B with
    | none =>
      have hB' : buildDict pk (B.map stripRec) = none := by
        rw [buildDict_strip pk hig, hB]
        rfl
      simp only [calculate_diff, hpk, hA, hA', hB, hB', Option.map_none']
    | some ad =>
      have hB' : buildDict pk (B.map stripRec)
          = some (ad.map (fun kr => (kr.1, stripRec kr.2))) := by
        rw [buildDict_strip pk hig, hB]
        rfl
      simp only [calculate_diff, hpk, hA, hA', hB, hB', Option.map_some', stripDiff]
      rw [added_strip bd ad, added_strip ad bd, modified_strip bd ad]

/-- C4 witness: a one-record pair differing only in `changed_at`. -/
theorem C4_provenance_neutral_witness :
    calculate_diff ([[("airport_id", 1), ("changed_at", 5)]].map stripRec)
        ([[("airport_id", 1), ("changed_at", 6)]].map stripRec) "airports"
      = (calculate_diff [[("airport_id", 1), ("changed_at", 5)]]
          [[("airport_id", 1), ("changed_at", 6)]] "airports").map stripDiff ∧
    rows_different [("airport_id", 1), ("changed_at", 5)]
      [("airport_id", 1), ("changed_at", 6)] = false := by
  have h := C4_provenance_neutral "airports" "airport_id" rfl (by decide)
    [[("airport_id", 1), ("changed_at", 5)]] [[("airport_id", 1), ("changed_at", 6)]]
  refine ⟨h.1, h.2 _ _ ?_⟩
  intro f hf
  have h2 : ¬ ("changed_at" == f) = true := by
    simp only [beq_iff_eq]
    intro he
    rw [← he] at hf
    simp [ignored, ignoredFields] at hf
  rw [getF_cons, getF_cons, getF_cons, getF_cons, if_neg h2, if_neg h2]

/-! ## The selective-restore executor (claim C1) -/

lemma chunksAux_join (n : Nat) (hn : 0 < n) :
    ∀ (fuel : Nat) (l : List Change), l.length ≤ fuel →
      (chunksAux n fuel l).flatten = l := by
  intro fuel
  induction fuel with
  | zero =>
    intro l hl
    have : l = [] := List.length_eq_zero.mp (Nat.le_zero.mp hl)
    subst this
    rfl
  | succ fuel ih =>
    intro l hl
    cases l with
    | nil => rfl
    | cons c rest =>
      rw [chunksAux, List.flatten_cons]
      rw [ih ((c :: rest).drop n) (by
        rw [List.length_drop]
        simp only [List.length_cons] at hl ⊢
        omega)]
      exact List.take_append_drop n (c :: rest)

lemma chunks_join (l : List Change) : (chunks 100 l).flatten = l :=
  chunksAux_join 100 (by omega) l.length l (Nat.le_refl _)

lemma execute_batch_restore_fst (pk : Field) :
    ∀ (batch : List Change) (t : Table) (n : Nat),
      (batch.foldlM (fun acc item =>
        (restore_write pk item acc.1).map (fun t' =>
          (t', acc.2 + (if item.type = "deleted" ∨ item.type = "modified" then 1 else 0))))
        ((t, n) : Table × Nat)).map (·.1)
        = batch.foldlM (fun t c => restore_write pk c t) t := by
  intro batch
  induction batch with
  | nil => intro t n; rfl
  | cons c rest ih =>
    intro t n
    rw [List.foldlM_cons, List.foldlM_cons]
    cases hw : restore_write pk c t with
    | none => rfl
    | some t' =>
      show (Option.map (·.1)
          (((some t').map (fun t'' => ((t'',
            n + (if c.type = "deleted" ∨ c.type = "modified" then 1 else 0)) : Table × Nat)))
            >>= (fun acc => rest.foldlM _ acc)))
        = ((some t') >>= fun t1 => rest.foldlM (fun t c => restore_write pk c t) t1)
      rw [Option.map_some']
      show (Option.map (·.1) (rest.foldlM _ ((t',
        n + (if c.type = "deleted" ∨ c.type = "modified" then 1 else 0)) : Table × Nat)))
        = rest.foldlM (fun t c => restore_write pk c t) t'
      exact ih t' _

lemma run_batches_some (pk : Field) (bf ir : Nat → Bool) :
    ∀ (bs : List (List Change)) (idx : Nat) (t tfin : Table) (pr bc : Nat),
      run_batches pk bf ir idx t bs = (some tfin, pr, bc) →
      bs.foldlM (fun t b => b.foldlM (fun t c => restore_write pk c t) t) t = some tfin := by
  intro bs
  induction bs with
  | nil =>
    intro idx t tfin pr bc h
    rw [run_batches] at h
    cases h
    rfl
  | cons b rest ih =>
    intro idx t tfin pr bc h
    rw [run_batches] at h
    by_cases hbf : bf idx
    · rw [if_pos hbf] at h
      cases h
    · rw [if_neg hbf] at h
      cases hb : execute_batch_restore pk b t with
      | none => rw [hb] at h; cases h
      | some tn =>
        obtain ⟨t1, n1⟩ := tn
        rw [hb] at h
        have h2 : (if validate_batch_integrity t1 (ir idx) then
            (match run_batches pk bf ir (idx + 1) t1 rest with
              | (res, pr2, bc2) => ((res, n1 + pr2, 1 + bc2) : Option Table × Nat × Nat))
          else ((none, n1, 1) : Option Table × Nat × Nat)) = (some tfin, pr, bc) := h
        rcases hr : run_batches pk bf ir (idx + 1) t1 rest with ⟨res, pr2, bc2⟩
        rw [hr] at h2
        have h3 : (if validate_batch_integrity t1 (ir idx) then
            ((res, n1 + pr2, 1 + bc2) : Option Table × Nat × Nat)
          else ((none, n1, 1) : Option Table × Nat × Nat)) = (some tfin, pr, bc) := h2
        by_cases hvi : validate_batch_integrity t1 (ir idx)
        · rw [if_pos hvi] at h3
          have hres : res = some tfin := congrArg Prod.fst h3
          rw [List.foldlM_cons]
          have hbt : b.foldlM (fun t c => restore_write pk c t) t = some t1 := by
            have hfst : (execute_batch_restore pk b t).map (·.1)
                = b.foldlM (fun t c => restore_write pk c t) t :=
              execute_batch_restore_fst pk b t 0
            rw [hb] at hfst
            exact hfst.symm
          rw [hbt]
          show rest.foldlM (fun t b => b.foldlM (fun t c => restore_write pk c t) t) t1
            = some tfin
          exact ih (idx + 1) t1 tfin pr2 bc2 (by rw [hr, hres])
        · rw [if_neg hvi] at h3
          exact absurd (congrArg Prod.fst h3) (by simp)

/-- C1: `execute_selective_restore` is atomic.  For every restore set,
every pre-state, every validator verdict and every injected failure
pattern (batch exceptions, integrity-probe failures or duplicate keys,
final-validation failure), either the call reports `success = false` and
the store equals the pre-operation state, or it reports `success = true`
and the store equals the one transaction's full application of the whole
restore set. -/
theorem C1_executor_atomic (pk : Field) (restore_list : List Change)
    (safe : Bool) (bf ir : Nat → Bool) (fr : Bool) (st : Table) :
    ((execute_selective_restore pk restore_list safe bf ir fr st).1.success = false ∧
      (execute_selective_restore pk restore_list safe bf ir fr st).2 = st) ∨
    ((execute_selective_restore pk restore_list safe bf ir fr st).1.success = true ∧
      apply_restore_list pk restore_list st
        = some (execute_selective_restore pk restore_list safe bf ir fr st).2) := by
  rw [execute_selective_restore]
  by_cases hsafe : safe
  · rw [if_neg (by simp [hsafe])]
    rcases hr : run_batches pk bf ir 1 st (chunks 100 restore_list) with ⟨res, prn, bcn⟩
    cases res with
    | none => exact Or.inl ⟨rfl, rfl⟩
    | some tmid =>
      have hfold : apply_restore_list pk restore_list st = some tmid := by
        have hfoldb := run_batches_some pk bf ir (chunks 100 restore_list) 1 st tmid
          prn bcn hr
        have hjoin : ∀ (bs : List (List Change)) (t0 : Table),
            bs.foldlM (fun t b => b.foldlM (fun t c => restore_write pk c t) t) t0
              = bs.flatten.foldlM (fun t c => restore_write pk c t) t0 := by
          intro bs
          induction bs with
          | nil => intro t0; rfl
          | cons b rest ihb =>
            intro t0
            rw [List.foldlM_cons, List.flatten_cons, List.foldlM_append]
            cases hbm : b.foldlM (fun t c => restore_write pk c t) t0 with
            | none => rfl
            | some t1 =>
              show rest.foldlM (fun t b => b.foldlM (fun t c => restore_write pk c t) t) t1
                = _
              exact ihb t1
        rw [apply_restore_list, ← chunks_join restore_list, ← hjoin, hfoldb]
      by_cases hfv : final_validation_check restore_list tmid fr
      · refine Or.inr ⟨?_, ?_⟩
        · show (if final_validation_check restore_list tmid fr then
              ((⟨true, prn, bcn, []⟩ : ExecResult), tmid)
            else ((⟨false, prn, bcn, ["Final validation failed"]⟩ : ExecResult), st)).1.success
            = true
          rw [if_pos hfv]
        · show apply_restore_list pk restore_list st = some
            (if final_validation_check restore_list tmid fr then
              ((⟨true, prn, bcn, []⟩ : ExecResult), tmid)
            else ((⟨false, prn, bcn, ["Final validation failed"]⟩ : ExecResult), st)).2
          rw [if_pos hfv]
          exact hfold
      · refine Or.inl ⟨?_, ?_⟩
        · show (if final_validation_check restore_list tmid fr then
              ((⟨true, prn, bcn, []⟩ : ExecResult), tmid)
            else ((⟨false, prn, bcn, ["Final validation failed"]⟩ : ExecResult), st)).1.success
            = false
          rw [if_neg hfv]
        · show (if final_validation_check restore_list tmid fr then
              ((⟨true, prn, bcn, []⟩ : ExecResult), tmid)
            else ((⟨false, prn, bcn, ["Final validation failed"]⟩ : ExecResult), st)).2
            = st
          rw [if_neg hfv]
  · rw [if_pos (by simp [hsafe])]
    exact Or.inl ⟨rfl, rfl⟩

/-! ## restore_records: key-addressed upserts only (claim C10) -/

lemma dlookup_append :
    ∀ (t₁ t₂ : Table) (k : Value),
      dlookup (t₁ ++ t₂) k
        = match dlookup t₁ k with
          | some r => some r
          | none => dlookup t₂ k := by
  intro t₁
  induction t₁ with
  | nil => intro t₂ k; rfl
  | cons kv rest ih =>
    intro t₂ k
    rw [List.cons_append, dlookup_cons, dlookup_cons]
    by_cases hk : (kv.1 == k)
    · rw [if_pos hk, if_pos hk]
    · rw [if_neg hk, if_neg hk]
      exact ih t₂ k

lemma dlookup_map_update (k₀ : Value) (clean : Record) (pk : Field) :
    ∀ (t : Table) (k : Value),
      dlookup (t.map (fun kr =>
          if kr.1 == k₀ then (kr.1, update_row kr.2 clean pk) else kr)) k
        = if k = k₀ then (dlookup t k).map (fun r => update_row r clean pk)
          else dlookup t k := by
  intro t
  induction t with
  | nil =>
    intro k
    by_cases hk : k = k₀ <;> simp [dlookup, hk]
  | cons kv rest ih =>
    intro k
    rw [List.map_cons]
    by_cases hh : (kv.1 == k₀)
    · rw [if_pos hh, dlookup_cons, dlookup_cons]
      by_cases hkk : (kv.1 == k)
      · have hkeq : k = k₀ := by
          rw [beq_iff_eq] at hh hkk
          rw [← hkk, hh]
        rw [if_pos hkk, if_pos hkk, if_pos hkeq, Option.map_some']
      · rw [if_neg hkk, if_neg hkk, ih k]
    · rw [if_neg hh, dlookup_cons, dlookup_cons]
      by_cases hkk : (kv.1 == k)
      · have hkne : ¬ k = k₀ := by
          rw [beq_iff_eq] at hkk
          rw [beq_iff_eq] at hh
          intro he
          exact hh (by rw [hkk, he])
        rw [if_pos hkk, if_pos hkk, if_neg hkne]
      · rw [if_neg hkk, if_neg hkk, ih k]

lemma upsert_props (pk : Field) (clean : Record) (t t' : Table) (k0 : Value)
    (hk0 : getF clean pk = some k0) (h : upsert pk clean t = some t') :
    (∀ k, (dlookup t k).isSome → (dlookup t' k).isSome) ∧
    (∀ k, k ≠ k0 → dlookup t' k = dlookup t k) ∧
    (∀ k, (dlookup t' k).isSome → (dlookup t k).isSome ∨ k = k0) := by
  have h1 : (match dlookup t k0 with
      | none => some (t ++ [(k0, clean)])
      | some _ =>
        if clean.all (fun kv => kv.1 == pk) then some t
        else some (t.map (fun kr =>
          if kr.1 == k0 then (kr.1, update_row kr.2 clean pk) else kr))) = some t' := by
    rw [← h, upsert, hk0]
  clear h
  cases hl : dlookup t k0 with
  | none =>
    rw [hl] at h1
    have h' : some (t ++ [(k0, clean)]) = some t' := h1
    cases h'
    refine ⟨?_, ?_, ?_⟩
    · intro k hk
      rw [dlookup_append]
      cases hdk : dlookup t k with
      | none => exact absurd hk (by simp [hdk])
      | some r => rfl
    · intro k hk
      rw [dlookup_append]
      cases hdk : dlookup t k with
      | none =>
        show dlookup [(k0, clean)] k = none
        rw [dlookup_cons, if_neg (by simp [beq_iff_eq]; exact fun he => hk he.symm)]
        rfl
      | some r => rfl
    · intro k hk
      rw [dlookup_append] at hk
      cases hdk : dlookup t k with
      | some r => exact Or.inl rfl
      | none =>
        rw [hdk] at hk
        have hk' : (dlookup [(k0, clean)] k).isSome = true := hk
        by_cases hke : (k0 == k)
        · exact Or.inr (by rw [beq_iff_eq] at hke; exact hke.symm)
        · rw [dlookup_cons, if_neg hke] at hk'
          exact absurd hk' (by simp [dlookup])
  | some row =>
    rw [hl] at h1
    have h2 : (if clean.all (fun kv => kv.1 == pk) then some t
        else some (t.map (fun kr =>
          if kr.1 == k0 then (kr.1, update_row kr.2 clean pk) else kr))) = some t' := h1
    by_cases hall : clean.all (fun kv => kv.1 == pk)
    · rw [if_pos hall] at h2
      have h' : some t = some t' := h2
      cases h'
      exact ⟨fun k hk => hk, fun k _ => rfl, fun k hk => Or.inl hk⟩
    · rw [if_neg hall] at h2
      have h' : some (t.map (fun kr =>
          if kr.1 == k0 then (kr.1, update_row kr.2 clean pk) else kr)) = some t' := h2
      cases h'
      refine ⟨?_, ?_, ?_⟩
      · intro k hk
        rw [dlookup_map_update]
        by_cases hke : k = k0
        · rw [if_pos hke]
          cases hdk : dlookup t k with
          | none => exact absurd hk (by simp [hdk])
          | some r => rfl
        · rw [if_neg hke]
          exact hk
      · intro k hk
        rw [dlookup_map_update, if_neg hk]
      · intro k hk
        rw [dlookup_map_update] at hk
        by_cases hke : k = k0
        · rw [if_pos hke] at hk
          cases hdk : dlookup t k with
          | none =>
            rw [hdk] at hk
            exact absurd hk (by simp)
          | some r => exact Or.inl rfl
        · rw [if_neg hke] at hk
          exact Or.inl hk

lemma restore_fold_props (pk : Field) :
    ∀ (records : List Record) (st st' : Table),
      records.foldlM (fun t r => upsert pk (stripRec r) t) st = some st' →
      (∀ k, (dlookup st k).isSome → (dlookup st' k).isSome) ∧
      (∀ k, k ∉ payloadKeys pk records → dlookup st' k = dlookup st k) ∧
      (∀ k, (dlookup st' k).isSome →
        (dlookup st k).isSome ∨ k ∈ payloadKeys pk records) := by
  intro records
  induction records with
  | nil =>
    intro st st' h
    have h' : some st = some st' := h
    cases h'
    exact ⟨fun k hk => hk, fun k _ => rfl, fun k hk => Or.inl hk⟩
  | cons r rest ih =>
    intro st st' h
    rw [List.foldlM_cons] at h
    cases hu : upsert pk (stripRec r) st with
    | none =>
      rw [hu] at h
      have h' : (none : Option Table) = some st' := h
      cases h'
    | some t1 =>
      rw [hu] at h
      have h' : rest.foldlM (fun t r => upsert pk (stripRec r) t) t1 = some st' := h
      cases hg : getF (stripRec r) pk with
      | none => rw [upsert, hg] at hu; cases hu
      | some k0 =>
        have hpay : payloadKeys pk (r :: rest) = k0 :: payloadKeys pk rest := by
          rw [payloadKeys, List.filterMap_cons, hg, payloadKeys]
        obtain ⟨u1, u2, u3⟩ := upsert_props pk (stripRec r) st t1 k0 hg hu
        obtain ⟨i1, i2, i3⟩ := ih t1 st' h'
        refine ⟨fun k hk => i1 k (u1 k hk), ?_, ?_⟩
        · intro k hk
          rw [hpay, List.mem_cons, not_or] at hk
          rw [i2 k hk.2, u2 k hk.1]
        · intro k hk
          rcases i3 k hk with hk1 | hk1
          · rcases u3 k hk1 with hk2 | hk2
            · exact Or.inl hk2
            · exact Or.inr (by rw [hpay, hk2]; simp)
          · exact Or.inr (by rw [hpay]; simp [hk1])

/-- C10: `restore_records` performs only key-addressed inserts and
updates.  When it succeeds, every primary key present before is still
present, rows whose keys do not occur in the payload are byte-identical,
and every row after the call was either already there or carries a
payload key — no row is ever deleted.  On failure the table is the
pre-operation one. -/
theorem C10_restore_frame (table pk : String) (records : List Record) (st : Table)
    (hpk : tablesPk table = some pk) :
    ((restore_records table records st).1.success = false →
      (restore_records table records st).2 = st) ∧
    ((restore_records table records st).1.success = true →
      (∀ k, (dlookup st k).isSome →
        (dlookup (restore_records table records st).2 k).isSome) ∧
      (∀ k, k ∉ payloadKeys pk records →
        dlookup (restore_records table records st).2 k = dlookup st k) ∧
      (∀ k, (dlookup (restore_records table records st).2 k).isSome →
        (dlookup st k).isSome ∨ k ∈ payloadKeys pk records)) := by
  have heq : restore_records table records st
      = match records.foldlM (fun t r => upsert pk (stripRec r) t) st with
        | none => ((⟨false, 0, ["constraint violation"]⟩ : RestoreResult), st)
        | some t' => ((⟨true, records.length, []⟩ : RestoreResult), t') := by
    rw [restore_records, hpk]
  cases hf : records.foldlM (fun t r => upsert pk (stripRec r) t) st with
  | none =>
    rw [hf] at heq
    have heq' : restore_records table records st
        = ((⟨false, 0, ["constraint violation"]⟩ : RestoreResult), st) := heq
    rw [heq']
    exact ⟨fun _ => rfl, fun h => by simp at h⟩
  | some t' =>
    rw [hf] at heq
    have heq' : restore_records table records st
        = ((⟨true, records.length, []⟩ : RestoreResult), t') := heq
    rw [heq']
    exact ⟨fun h => by simp at h, fun _ => restore_fold_props pk records st t' hf⟩

/-- C10 witness: a two-row airports table; the payload rewrites key 1
only.  The row under key 2 — precisely the kind of record the dry-run
preview counted in `will_remove` (the deleted entry of
`diff(current, historical)`) — survives the executed restore unchanged. -/
theorem C10_restore_frame_witness :
    (restore_records "airports" [[("airport_id", 1), ("name", 11), ("ROW_START", 99)]]
      [(1, [("airport_id", 1), ("name", 10)]), (2, [("airport_id", 2), ("name", 20)])]).1.success
      = true ∧
    dlookup (restore_records "airports"
      [[("airport_id", 1), ("name", 11), ("ROW_START", 99)]]
      [(1, [("airport_id", 1), ("name", 10)]), (2, [("airport_id", 2), ("name", 20)])]).2 2
      = dlookup [(1, [("airport_id", 1), ("name", 10)]),
          (2, [("airport_id", 2), ("name", 20)])] 2 ∧
    (calculate_diff
        (currentRows [(1, [("airport_id", 1), ("name", 10)]),
          (2, [("airport_id", 2), ("name", 20)])])
        [[("airport_id", 1), ("name", 11), ("ROW_START", 99)]] "airports").map
        (fun d => d.deleted.length) = some 1 := by
  refine ⟨rfl, ?_, rfl⟩
  exact ((C10_restore_frame "airports" "airport_id"
      [[("airport_id", 1), ("name", 11), ("ROW_START", 99)]]
      [(1, [("airport_id", 1), ("name", 10)]), (2, [("airport_id", 2), ("name", 20)])]
      rfl).2 rfl).2.1 2 (by decide)

/-! ## Change classification (claims C8, C9) -/

/-- C8 (counterexample): classification does NOT demote every change with
a missing timestamp to uncertain.  Eleven deleted records, all with no
derivable deletion timestamp, are sent to restore by the mass-deletion
heuristic with uncertain left empty; and a time-range rule matches an
added change whose creation timestamp is missing (the source skips the
time check), labelling it keep. -/
theorem C8_counterexample :
    (heuristic_analysis
        ⟨(List.range 11).map (fun i => ({ id := (i : Int) } : ChangeData)), [], []⟩
        0).restore_records.length = 11 ∧
    (heuristic_analysis
        ⟨(List.range 11).map (fun i => ({ id := (i : Int) } : ChangeData)), [], []⟩
        0).uncertain_records = [] ∧
    ((List.range 11).map (fun i => ({ id := (i : Int) } : ChangeData))).all
      (fun d => d.deletion_timestamp == none) = true ∧
    matches_rule ⟨"added", { id := 1 }⟩
      { time_range := some (0, 100), action := "keep" } = true ∧
    (classify_changes ⟨[], [{ id := 1 }], []⟩
        (some [{ time_range := some (0, 100), action := "keep" }]) 0).keep_records
      = [⟨"added", { id := 1 }⟩] ∧
    ({ id := 1 } : ChangeData).creation_timestamp = none := by
  refine ⟨by decide, by decide, by decide, by decide, by decide, rfl⟩

/-- C8 (amended): under the default heuristics an ADDED change whose
creation timestamp cannot be derived does fall to uncertain (and to no
other bucket); deleted and modified changes, however, are classified by
the mass-deletion and critical-field heuristics without consulting
timestamps, and a user rule predicating on a time range skips the time
check (and may match) when the change carries no timestamp. -/
theorem C8_missing_timestamp (cs : ChangeSet) (ct : Time) (d : ChangeData)
    (hd : d ∈ cs.added_records) (hts : d.creation_timestamp = none) :
    (⟨"added", d⟩ : Change) ∈ (heuristic_analysis cs ct).uncertain_records ∧
    (⟨"added", d⟩ : Change) ∉ (heuristic_analysis cs ct).keep_records ∧
    (⟨"added", d⟩ : Change) ∉ (heuristic_analysis cs ct).restore_records := by
  have hrec : recent_addition ct d = false := by rw [recent_addition, hts]
  refine ⟨?_, ?_, ?_⟩
  · rw [heuristic_analysis]
    apply List.mem_append_left
    exact List.mem_map.mpr ⟨d, List.mem_filter.mpr ⟨hd, by rw [hrec]; rfl⟩, rfl⟩
  · rw [heuristic_analysis]
    intro hmem
    rcases List.mem_append.mp hmem with hm | hm
    · obtain ⟨a, ha, he⟩ := List.mem_map.mp hm
      have haeq : a = d := congrArg Change.data he
      subst haeq
      have hfil := (List.mem_filter.mp ha).2
      rw [hrec] at hfil
      cases hfil
    · obtain ⟨m, _, he⟩ := List.mem_map.mp hm
      have hty : ("modified" : String) = "added" := congrArg Change.type he
      exact absurd hty (by decide)
  · rw [heuristic_analysis]
    intro hmem
    rcases List.mem_append.mp hmem with hm | hm
    · by_cases hmass : 10 < cs.deleted_records.length
      · rw [if_pos hmass] at hm
        obtain ⟨m, _, he⟩ := List.mem_map.mp hm
        have hty : ("deleted" : String) = "added" := congrArg Change.type he
        exact absurd hty (by decide)
      · rw [if_neg hmass] at hm
        cases hm
    · obtain ⟨m, _, he⟩ := List.mem_map.mp hm
      have hty : ("modified" : String) = "added" := congrArg Change.type he
      exact absurd hty (by decide)

/-- C8 witness: a one-element added change set with no creation
timestamp. -/
theorem C8_missing_timestamp_witness :
    (⟨"added", { id := 1 }⟩ : Change)
      ∈ (heuristic_analysis ⟨[], [{ id := 1 }], []⟩ 0).uncertain_records ∧
    (⟨"added", { id := 1 }⟩ : Change)
      ∉ (heuristic_analysis ⟨[], [{ id := 1 }], []⟩ 0).keep_records ∧
    (⟨"added", { id := 1 }⟩ : Change)
      ∉ (heuristic_analysis ⟨[], [{ id := 1 }], []⟩ 0).restore_records :=
  C8_missing_timestamp ⟨[], [{ id := 1 }], []⟩ 0 { id := 1 } (by decide) rfl

/-- C9 (counterexample): a rule whose action is neither `keep` nor
`restore` silently DROPS every change it matches: one change in, all
three buckets empty out — not a partition. -/
theorem C9_counterexample :
    classify_changes ⟨[], [{ id := 1 }], []⟩ (some [{ action := "flag" }]) 0
      = ⟨[], [], []⟩ ∧
    (all_changes ⟨[], [{ id := 1 }], []⟩).length = 1 := by
  refine ⟨by decide, rfl⟩

lemma rule_route_none (rules : List Rule) (cl : Classification) (c : Change)
    (hf : rules.find? (fun r => matches_rule c r) = none) :
    rule_route rules cl c
      = { cl with uncertain_records := cl.uncertain_records ++ [c] } := by
  rw [rule_route, hf]

lemma rule_route_keep (rules : List Rule) (cl : Classification) (c : Change)
    (r : Rule) (hf : rules.find? (fun r => matches_rule c r) = some r)
    (ha : r.action = "keep") :
    rule_route rules cl c = { cl with keep_records := cl.keep_records ++ [c] } := by
  rw [rule_route, hf]
  simp [ha]

lemma rule_route_restore (rules : List Rule) (cl : Classification) (c : Change)
    (r : Rule) (hf : rules.find? (fun r => matches_rule c r) = some r)
    (ha : r.action = "restore") :
    rule_route rules cl c
      = { cl with restore_records := cl.restore_records ++ [c] } := by
  rw [rule_route, hf]
  simp [ha]

lemma apply_rules_foldl (rules : List Rule)
    (hwf : ∀ r ∈ rules, r.action = "keep" ∨ r.action = "restore") :
    ∀ (l : List Change) (cl : Classification),
      l.foldl (rule_route rules) cl
      = ⟨cl.keep_records ++ l.filter (fun c => pickAction rules c == some "keep"),
         cl.restore_records ++ l.filter (fun c => pickAction rules c == some "restore"),
         cl.uncertain_records
           ++ l.filter (fun c => (rules.find? (fun r => matches_rule c r)).isNone)⟩ := by
  intro l
  induction l with
  | nil => intro cl; cases cl; simp
  | cons c rest ih =>
    intro cl
    rw [List.foldl_cons]
    cases hf : rules.find? (fun r => matches_rule c r) with
    | none =>
      rw [rule_route_none rules cl c hf, ih]
      have hp1 : (pickAction rules c == some "keep") = false := by
        rw [pickAction, hf]
        rfl
      have hp2 : (pickAction rules c == some "restore") = false := by
        rw [pickAction, hf]
        rfl
      have hp3 : ((rules.find? (fun r => matches_rule c r)).isNone) = true := by
        rw [hf]
        rfl
      simp [List.filter_cons, hp1, hp2, hp3]
    | some r =>
      rcases hwf r (List.mem_of_find?_eq_some hf) with ha | ha
      · rw [rule_route_keep rules cl c r hf ha, ih]
        have hp1 : (pickAction rules c == some "keep") = true := by
          simp [pickAction, hf, ha]
        have hp2 : (pickAction rules c == some "restore") = false := by
          simp [pickAction, hf, ha]
        have hp3 : ((rules.find? (fun r => matches_rule c r)).isNone) = false := by
          rw [hf]
          rfl
        simp [List.filter_cons, hp1, hp2, hp3]
      · rw [rule_route_restore rules cl c r hf ha, ih]
        have hp1 : (pickAction rules c == some "keep") = false := by
          simp [pickAction, hf, ha]
        have hp2 : (pickAction rules c == some "restore") = true := by
          simp [pickAction, hf, ha]
        have hp3 : ((rules.find? (fun r => matches_rule c r)).isNone) = false := by
          rw [hf]
          rfl
        simp [List.filter_cons, hp1, hp2, hp3]

lemma filter_partition_length (rules : List Rule)
    (hwf : ∀ r ∈ rules, r.action = "keep" ∨ r.action = "restore") :
    ∀ l : List Change,
      (l.filter (fun c => pickAction rules c == some "keep")).length
        + (l.filter (fun c => pickAction rules c == some "restore")).length
        + (l.filter (fun c => (rules.find? (fun r => matches_rule c r)).isNone)).length
      = l.length := by
  intro l
  induction l with
  | nil => rfl
  | cons c rest ih =>
    rw [List.filter_cons, List.filter_cons, List.filter_cons]
    cases hf : rules.find? (fun r => matches_rule c r) with
    | none =>
      have hp1 : (pickAction rules c == some "keep") = false := by
        simp [pickAction, hf]
      have hp2 : (pickAction rules c == some "restore") = false := by
        simp [pickAction, hf]
      simp only [hp1, hp2, Option.isNone_none]
      simp only [Bool.false_eq_true, if_false, if_true, List.length_cons]
      omega
    | some r =>
      rcases hwf r (List.mem_of_find?_eq_some hf) with ha | ha
      · have hp1 : (pickAction rules c == some "keep") = true := by
          simp [pickAction, hf, ha]
        have hp2 : (pickAction rules c == some "restore") = false := by
          simp [pickAction, hf, ha]
        simp only [hp1, hp2, Option.isNone_some]
        simp only [Bool.false_eq_true, if_false, if_true, List.length_cons]
        omega
      · have hp1 : (pickAction rules c == some "keep") = false := by
          simp [pickAction, hf, ha]
        have hp2 : (pickAction rules c == some "restore") = true := by
          simp [pickAction, hf, ha]
        simp only [hp1, hp2, Option.isNone_some]
        simp only [Bool.false_eq_true, if_false, if_true, List.length_cons]
        omega

/-- C9 (amended): provided every rule's action is `keep` or `restore`,
`classify_changes` with a nonempty rule list partitions the change set:
keep holds exactly the changes whose FIRST matching rule says keep,
restore those whose first matching rule says restore, uncertain those
matching no rule, and the three bucket sizes sum to the number of
changes.  (A rule with any other action drops its matches — see the
counterexample.) -/
theorem C9_rules_partition (cs : ChangeSet) (rules : List Rule) (ct : Time)
    (hne : rules ≠ [])
    (hwf : ∀ r ∈ rules, r.action = "keep" ∨ r.action = "restore") :
    (classify_changes cs (some rules) ct).keep_records
      = (all_changes cs).filter (fun c => pickAction rules c == some "keep") ∧
    (classify_changes cs (some rules) ct).restore_records
      = (all_changes cs).filter (fun c => pickAction rules c == some "restore") ∧
    (classify_changes cs (some rules) ct).uncertain_records
      = (all_changes cs).filter
          (fun c => (rules.find? (fun r => matches_rule c r)).isNone) ∧
    (classify_changes cs (some rules) ct).keep_records.length
      + (classify_changes cs (some rules) ct).restore_records.length
      + (classify_changes cs (some rules) ct).uncertain_records.length
      = (all_changes cs).length := by
  have hcl : classify_changes cs (some rules) ct = apply_rules cs rules := by
    rw [classify_changes,
      if_neg (by simpa using hne)]
  rw [hcl, apply_rules, apply_rules_foldl rules hwf]
  refine ⟨by simp, by simp, by simp, ?_⟩
  simp only [List.nil_append]
  exact filter_partition_length rules hwf (all_changes cs)

/-- C9 witness: one added change, one keep-everything rule. -/
theorem C9_rules_partition_witness :
    (classify_changes ⟨[], [{ id := 1 }], []⟩ (some [{ action := "keep" }]) 0).keep_records
      = (all_changes ⟨[], [{ id := 1 }], []⟩).filter
          (fun c => pickAction [{ action := "keep" }] c == some "keep") ∧
    (classify_changes ⟨[], [{ id := 1 }], []⟩ (some [{ action := "keep" }]) 0).restore_records
      = (all_changes ⟨[], [{ id := 1 }], []⟩).filter
          (fun c => pickAction [{ action := "keep" }] c == some "restore") ∧
    (classify_changes ⟨[], [{ id := 1 }], []⟩ (some [{ action := "keep" }]) 0).uncertain_records
      = (all_changes ⟨[], [{ id := 1 }], []⟩).filter
          (fun c => (([{ action := "keep" }] : List Rule).find?
            (fun r => matches_rule c r)).isNone) ∧
    (classify_changes ⟨[], [{ id := 1 }], []⟩
        (some [{ action := "keep" }]) 0).keep_records.length
      + (classify_changes ⟨[], [{ id := 1 }], []⟩
          (some [{ action := "keep" }]) 0).restore_records.length
      + (classify_changes ⟨[], [{ id := 1 }], []⟩
          (some [{ action := "keep" }]) 0).uncertain_records.length
      = (all_changes ⟨[], [{ id := 1 }], []⟩).length :=
  C9_rules_partition ⟨[], [{ id := 1 }], []⟩ [{ action := "keep" }] 0
    (by decide) (by decide)

end FlightVault
